import Mathlib

/-!
Verification of the NestedText decoding pipeline (and the encoder fragment
needed for the round-trip property) against the Go sources of the
`nestedtext` repository.

The embedding is a line-level shallow embedding of the Go code:

* `splitLines`, `LineBuffer.isIgnoredLine` model `internal/parse/linebuf.go`
  (logical-line splitting on CR / LF / CRLF, blank/comment skipping, BOM);
* `scanLine` / `scanTokens` model the line scanner of
  `internal/parse/scanner.go` (one token per content line);
* `InlineItemParser.run` / `InlineItemParser.ParseInline` model the
  table-driven inline automaton of the inline-item parser
  (state table `inlineStateMachine` and its actions, copied verbatim);
* `Parser.parseAny` and friends model the recursive-descent structural
  parser of `internal/parse/parser.go`; Go's mutable parser object becomes
  explicit state passing (`PState`), Go's `p.depth` counter becomes the
  `depth` argument, and the mutual recursion is made total with a `fuel`
  argument that strictly decreases on every call (the Go recursion consumes
  at least one token or one character per cycle, so any fuel larger than
  the token count makes the fueled function agree with the Go code);
* `Encoder.encode` models the value-tree encoder of the encoder source
  (the `string`, `[]interface{}` and `map[string]interface{}` branches,
  which are the only dynamic types a decoded value can have).

Go `panic`s (out-of-range indexing, the `ReduceToItem` mixed-item panic,
`PushKV` on an empty stack) are modelled by the distinguished error
constructor `PErr.goPanic`, so "the code never panics on this input" is the
statement "the result is never `PErr.goPanic _`".

The parser stack grows at the HEAD of the list here (Go appends at the end
of a slice); `Tos` is the head.
-/

/-- The value model: Go `interface{}` results of the decoder are exactly
strings, `[]interface{}` and `map[string]interface{}`.  Go's unordered map
is modelled as an association list in insertion order of the parser's
`Keys` slice (key order is irrelevant to map equality; the encoder sorts
keys before use). -/
inductive Value where
  | str (s : String) : Value
  | list (items : List Value) : Value
  | dict (entries : List (String × Value)) : Value
deriving Repr

/-- Structured error, modelling `NestedTextError` of `nestedtext.go`:
a numeric code, a 1-based line and column (0 when the error carries no
position, as with `makeFormatError`), and the message. -/
structure Err where
  code : Nat
  line : Nat
  col : Nat
  msg : String
deriving DecidableEq, Repr

/-- Error codes from `nestedtext.go` (the `const` block with `iota`). -/
def ErrCodeIO : Nat := 10

def ErrCodeFormat : Nat := 204

def ErrCodeFormatNoInput : Nat := 205

/-- `makeFormatError` of `parse.go`: a format error without position. -/
def makeFormatError (msg : String) : Err :=
  { code := ErrCodeFormat, line := 0, col := 0, msg := msg }

/-- Decoder-side error: either a Go `error` value or a Go `panic`
(array index out of range, nil dereference, or an explicit `panic`). -/
inductive PErr where
  | goError (e : Err) : PErr
  | goPanic (msg : String) : PErr
deriving DecidableEq, Repr

/-- Token types of `internal/parse/token.go` with their `iota` numbers. -/
inductive TokenType where
  | Undefined
  | EOF
  | EmptyDocument
  | DocRoot
  | ListItem
  | ListItemMultiline
  | StringMultiline
  | DictKeyMultiline
  | InlineList
  | InlineDict
  | InlineDictKeyValue
  | InlineDictKey
deriving DecidableEq, Repr

/-- The numeric value of a `TokenType` (its `iota` position), used by the
"internal error: unknown item type %d" message. -/
def TokenType.num : TokenType → Nat
  | .Undefined => 0
  | .EOF => 1
  | .EmptyDocument => 2
  | .DocRoot => 3
  | .ListItem => 4
  | .ListItemMultiline => 5
  | .StringMultiline => 6
  | .DictKeyMultiline => 7
  | .InlineList => 8
  | .InlineDict => 9
  | .InlineDictKeyValue => 10
  | .InlineDictKey => 11

/-- A scanner token, modelling `Token` of `internal/parse/token.go`. -/
structure Token where
  lineNo : Nat
  colNo : Nat
  tokenType : TokenType
  indent : Nat
  content : List String
  error : Option Err
deriving DecidableEq, Repr

/-- `makeParsingError` of `parse.go`: error with the token's position. -/
def makeParsingError (token : Token) (code : Nat) (msg : String) : Err :=
  { code := code, line := token.lineNo, col := token.colNo, msg := msg }

/-- `unicode.IsSpace` from the Go standard library (the White_Space
property), used by `strings.TrimSpace` and the indentation checks. -/
def goIsSpace (c : Char) : Bool :=
  c = ' ' ∨ c = '\t' ∨ c = '\n' ∨ c = '\x0b' ∨ c = '\x0c' ∨ c = '\r' ∨
  c = '\x85' ∨ c = '\xa0' ∨ c = ' ' ∨
  (0x2000 ≤ c.val ∧ c.val ≤ 0x200a) ∨
  c = ' ' ∨ c = ' ' ∨ c = ' ' ∨ c = ' ' ∨ c = '　'

/-- `strings.TrimSpace` on a character list. -/
def goTrim (cs : List Char) : List Char :=
  (((cs.dropWhile goIsSpace).reverse).dropWhile goIsSpace).reverse

/-- `strings.TrimSpace` on a `String`. -/
def goTrimString (s : String) : String :=
  String.mk (goTrim s.data)

/-- The character class of the Go regular-expression escape `\s`
(`[\t\n\f\r ]`), used by the blank-line and comment-line patterns of
`linebuf.go`. -/
def goRegexSpace (c : Char) : Bool :=
  c = '\t' ∨ c = '\n' ∨ c = '\x0c' ∨ c = '\r' ∨ c = ' '

/-- `LineBuffer.IsIgnoredLine`: blank lines (`^\s*$`) and comment lines
(`^\s*#`) are skipped before the scanner sees them. -/
def isIgnoredLine (cs : List Char) : Bool :=
  match cs.dropWhile goRegexSpace with
  | [] => true
  | c :: _ => c = '#'

/-- After a bare `\r`, an immediately following `\n` belongs to the same
line terminator. -/
def dropLeadingLF : List Char → List Char
  | [] => []
  | c :: r => if c = '\n' then r else c :: r

theorem dropLeadingLF_length_le (r : List Char) : (dropLeadingLF r).length ≤ r.length := by
  cases r with
  | nil => simp [dropLeadingLF]
  | cons c r =>
      simp only [dropLeadingLF]
      split
      · simp
      · simp

def takeLine : List Char → List Char × List Char
  | [] => ([], [])
  | c :: rest =>
      if c = '\n' then ([], rest)
      else if c = '\r' then ([], dropLeadingLF rest)
      else
        let p := takeLine rest
        (c :: p.1, p.2)

theorem takeLine_rest_le (cs : List Char) : (takeLine cs).2.length ≤ cs.length := by
  induction cs with
  | nil => simp [takeLine]
  | cons c rest ih =>
      simp only [takeLine]
      split
      · simp
      · split
        · have := dropLeadingLF_length_le rest
          simp
          omega
        · simp
          omega

theorem takeLine_rest_lt (c : Char) (rest : List Char) :
    (takeLine (c :: rest)).2.length < (c :: rest).length := by
  simp only [takeLine]
  split
  · simp
  · split
    · have := dropLeadingLF_length_le rest
      simp
      omega
    · have := takeLine_rest_le rest
      simp
      omega

/-- Fuel-structured splitting loop; the fuel only needs to reach the
input length (each line step strictly shrinks the rest). -/
def splitLinesAux : Nat → List Char → List (List Char)
  | 0, _ => []
  | _, [] => []
  | fuel + 1, c :: rest =>
      (takeLine (c :: rest)).1 :: splitLinesAux fuel (takeLine (c :: rest)).2

/-- Logical-line splitting of the whole input (the `bufio.Scanner` loop of
`LineBuffer.AdvanceLine`): a trailing terminator produces no extra empty
line; empty input has no lines. -/
def splitLines (cs : List Char) : List (List Char) :=
  splitLinesAux cs.length cs

/-! ## Parser stack (`part_003`: `Stack`, `StackEntry`) -/

/-- Inline-automaton state values of `part_003` (`InlineParserState`).
`StateError` is `-1`; the plain states are `0` … `10`; `StateS1 = 11`,
`StateS2 = 12`, `StateA1 = 13`, `StateA2 = 14`. -/
def StateError : Int := -1

def StateS1 : Int := 11

def StateS2 : Int := 12

def StateA1 : Int := 13

def StateA2 : Int := 14

def IsErrorState (s : Int) : Bool := s < 0

def IsNonterm (s : Int) : Bool := s = StateS1 ∨ s = StateS2

def IsAccept (s : Int) : Bool := s = StateA1 ∨ s = StateA2

def IsGhost (s : Int) : Bool := s = 5 ∨ s = 10

/-- A parser stack entry (`StackEntry` of `part_003`).  `keys = none`
models Go's nil `Keys` slice (a list-shaped frame); `keys = some ks` a
dict-shaped frame. -/
structure StackEntry where
  values : List Value
  keys : Option (List String)
  key : Option String
  error : Option Err
  nontermState : Int
deriving Repr

/-- `Stack` is a list of entries; the HEAD is the top of stack (Go appends
at the end of the slice). -/
abbrev Stack := List StackEntry

/-- `Stack.PushKV` of `part_003`: push a value and an optional key onto
the top entry; duplicate keys and keys in non-dict context are errors;
the empty stack is a Go panic. -/
def Stack.PushKV : Stack → Option String → Value → Except PErr Stack
  | [], _, _ => .error (.goPanic "use of un-initialized parser stack")
  | tos :: rest, str, val =>
      match str with
      | some k =>
          match tos.keys with
          | none => .error (.goError (makeFormatError "unexpected key in non-dict context"))
          | some ks =>
              if k ∈ ks then
                .error (.goError (makeFormatError ("duplicate key: " ++ k)))
              else
                .ok ({ tos with keys := some (ks ++ [k]), values := tos.values ++ [val] } :: rest)
      | none => .ok ({ tos with values := tos.values ++ [val] } :: rest)

/-- `StackEntry.ReduceToItem` of `part_003`.  `none` is the Go panic
("mixed item: number of keys not equal to number of values"); with an
empty (but non-nil) key list the Go loop body never runs, so any stored
values are dropped — `List.zip` models this exactly. -/
def StackEntry.ReduceToItem (e : StackEntry) : Option Value :=
  match e.keys with
  | none => some (.list e.values)
  | some ks =>
      if ks.length > 0 ∧ e.values.length ≠ ks.length then none
      else some (.dict (ks.zip e.values))

/-! ## Inline item parser (the second document of `parse.go`) -/

/-- `InlineTokenFor`: the character class of a rune. -/
def InlineTokenFor (r : Char) : Nat :=
  if r = ' ' then 1
  else if r = '\n' then 2
  else if r = ',' then 3
  else if r = ':' then 4
  else if r = '[' then 5
  else if r = ']' then 6
  else if r = '{' then 7
  else if r = '}' then 8
  else if goIsSpace r then 1
  else 0

def chClassCnt : Nat := 11

/-- `stateIndex`: a non-terminal state as a pseudo character class
(`S1 ↦ 9`, `S2 ↦ 10`). -/
def stateIndex (s : Int) : Nat := (s - StateS1 + (chClassCnt : Int) - 2).toNat

/-- The transition table `inlineStateMachine`, row for row as in the Go
source (`-1` is `StateError`). -/
def inlineStateMachine (s : Int) (c : Nat) : Int :=
  let row : List Int :=
    match s with
    | 0 => [-1, -1, -1, -1, -1, 7, -1, 1, -1, -1, -1]
    | 1 => [2, 2, -1, -1, 3, -1, -1, -1, 13, -1, -1]
    | 2 => [2, 2, -1, -1, 3, -1, -1, -1, -1, -1, -1]
    | 3 => [4, 3, -1, 6, -1, 12, -1, 11, 13, 5, 5]
    | 4 => [4, 4, -1, 6, -1, -1, -1, -1, 13, -1, -1]
    | 5 => [-1, 5, -1, 6, -1, -1, -1, -1, 13, -1, -1]
    | 6 => [2, 6, -1, -1, 3, -1, -1, -1, -1, -1, -1]
    | 7 => [9, 8, -1, 7, 9, 12, 14, 11, -1, 10, 10]
    | 8 => [9, 8, -1, 7, 9, 12, 14, 11, -1, 10, 10]
    | 9 => [9, 9, -1, 7, 9, -1, 14, -1, -1, -1, -1]
    | 10 => [-1, 10, -1, 7, -1, -1, 14, -1, -1, -1, -1]
    | 11 => [-1, -1, -1, -1, -1, -1, -1, 1, -1, -1, -1]
    | 12 => [-1, -1, -1, -1, -1, 7, -1, -1, -1, -1, -1]
    | _ => [-1, -1, -1, -1, -1, -1, -1, -1, -1, -1, -1]
  row.getD c (-1)

/-- `pushNonterm` of the inline parser: a fresh stack entry, dict-shaped
exactly for `StateS1`. -/
def inlineFreshEntry (state : Int) (nontermState : Int) : StackEntry :=
  { values := [], keys := if state = StateS1 then some [] else none,
    key := none, error := none, nontermState := nontermState }

/-- The slice `p.Text[p.Marker:p.TextPosition]`. -/
def textSlice (text : List Char) (marker pos : Nat) : List Char :=
  (text.drop marker).take (pos - marker)

/-- `appendStringValue` of the inline parser: push the marked span as a
string value (trimmed), under the current pending key if one is set;
at an accepting state an empty first value of a list is not pushed. -/
def appendStringValue (isAcc : Bool) (text : List Char) (pos marker : Nat)
    (stack : Stack) : Except PErr Stack :=
  let value := textSlice text marker pos
  match stack with
  | [] => .error (.goPanic "Tos on empty stack")
  | tos :: _ =>
      match tos.key with
      | some _ => Stack.PushKV stack tos.key (.str (String.mk (goTrim value)))
      | none =>
          if ¬isAcc ∨ value.length > 0 ∨ tos.values.length > 0 then
            Stack.PushKV stack none (.str (String.mk (goTrim value)))
          else
            .ok stack

/-- The per-state actions `inlineStateMachineActions`, dispatched on the
destination state; the result is the new `Marker` and the new stack, or
the error the Go action stored in `Tos().Error` before returning `false`. -/
def inlineAction (dst src : Int) (ch : Char) (text : List Char)
    (pos marker : Nat) (stack : Stack) : Except PErr (Nat × Stack) :=
  match dst with
  | 1 => .ok (pos + 1, stack)
  | 3 =>
      if src = 3 then .ok (marker, stack)
      else
        match stack with
        | [] => .error (.goPanic "Tos on empty stack")
        | tos :: rest =>
            let key := String.mk (goTrim (textSlice text marker pos))
            .ok (pos + 1, { tos with key := some key } :: rest)
  | 6 =>
      if src = 6 then .ok (marker, stack)
      else
        let pushed : Except PErr Stack :=
          if marker > 0 ∧ ¬IsGhost src then
            appendStringValue false text pos marker stack
          else .ok stack
        match pushed with
        | .error e => .error e
        | .ok stack2 =>
            match stack2 with
            | [] => .error (.goPanic "Tos on empty stack")
            | tos :: rest => .ok (pos + 1, { tos with key := none } :: rest)
  | 7 =>
      let pushed : Except PErr Stack :=
        if ch = ',' ∧ marker > 0 ∧ ¬IsGhost src then
          appendStringValue false text pos marker stack
        else .ok stack
      match pushed with
      | .error e => .error e
      | .ok stack2 => .ok (pos + 1, stack2)
  | 11 => if src = 3 ∨ src = 8 then .ok (0, stack) else .ok (marker, stack)
  | 12 => if src = 3 ∨ src = 8 then .ok (0, stack) else .ok (marker, stack)
  | 13 =>
      if marker > 0 ∧ ¬IsGhost src then
        match appendStringValue true text pos marker stack with
        | .error e => .error e
        | .ok stack2 => .ok (marker, stack2)
      else .ok (marker, stack)
  | 14 =>
      if marker > 0 ∧ ¬IsGhost src then
        match appendStringValue true text pos marker stack with
        | .error e => .error e
        | .ok stack2 => .ok (marker, stack2)
      else .ok (marker, stack)
  | _ => .ok (marker, stack)

/-- The wrapped I/O error returned when `ReadRune` hits the end of the
line text (`WrapIOError("I/O-error reading inline item", …)`). -/
def inlineEofError : Err :=
  { code := ErrCodeIO, line := 0, col := 0, msg := "I/O-error reading inline item" }

/-- The error produced when the automaton enters the error state with no
more specific error on the stack: `MakeFormatError(&t, …, "format error")`
with the token at `(LineNo, TextPosition)`. -/
def inlineGenericError (lineNo pos : Nat) : Err :=
  { code := ErrCodeFormat, line := lineNo, col := pos, msg := "format error" }

/-- One iteration of the `for len(p.Stack) > 0` loop of
`InlineItemParser.Parse`, with `cont` the rest of the loop (the loop
re-entered at the advanced position).  Factored out of `inlineRun` so a
single iteration can be unfolded symbolically. -/
def inlineRunStep (cont : Nat → Nat → Int → Stack → Except PErr (Value × Nat))
    (lineNo : Nat) (text : List Char) (pos marker : Nat) (state : Int)
    (tos0 : StackEntry) (rest0 : Stack) : Except PErr (Value × Nat) :=
  let stack : Stack := tos0 :: rest0
  match (text.drop pos).head? with
  | none => .error (.goError inlineEofError)
  | some ch =>
      let chType := InlineTokenFor ch
      let old := state
      let state1 := inlineStateMachine state chType
      if IsErrorState state1 then
        match tos0.error with
        | some e => .error (.goError e)
        | none => .error (.goError (inlineGenericError lineNo pos))
      else
        let pushed :=
          if IsNonterm state1 then
            (inlineFreshEntry state1 (inlineStateMachine old (stateIndex state1)) :: stack,
             inlineStateMachine state1 chType)
          else (stack, state1)
        let stack2 := pushed.1
        let state2 := pushed.2
        if IsErrorState state2 then .error (.goPanic "action index out of range")
        else
          match inlineAction state2 old ch text pos marker stack2 with
          | .error e => .error e
          | .ok (marker2, stack3) =>
              if IsAccept state2 then
                match stack3 with
                | [] => .error (.goPanic "Tos on empty stack")
                | tos :: rest =>
                    match tos.ReduceToItem with
                    | none => .error (.goPanic
                        "mixed item: number of keys not equal to number of values")
                    | some result =>
                        let state3 := tos.nontermState
                        match rest with
                        | [] => .ok (result, pos + 1)
                        | parent :: _ =>
                            match Stack.PushKV rest parent.key result with
                            | .error e => .error e
                            | .ok stack4 => cont (pos + 1) marker2 state3 stack4
              else
                cont (pos + 1) marker2 state2 stack3

/-- The loop of `InlineItemParser.Parse`.  One iteration per character;
`fuel` only needs to exceed the number of characters left.  The result is
the reduced value of the last popped frame together with the final
`TextPosition`. -/
def inlineRun (lineNo : Nat) (text : List Char) : Nat → Nat → Nat → Int → Stack →
    Except PErr (Value × Nat)
  | 0, _, _, _, _ => .error (.goPanic "out of fuel")
  | _ + 1, _, _, _, [] => .error (.goPanic "loop entered with empty stack")
  | fuel + 1, pos, marker, state, tos0 :: rest0 =>
      inlineRunStep (inlineRun lineNo text fuel) lineNo text pos marker state tos0 rest0

theorem inlineRun_succ (lineNo : Nat) (text : List Char) (fuel pos marker : Nat)
    (state : Int) (tos0 : StackEntry) (rest0 : Stack) :
    inlineRun lineNo text (fuel + 1) pos marker state (tos0 :: rest0) =
      inlineRunStep (inlineRun lineNo text fuel) lineNo text pos marker state tos0 rest0 := rfl

/-- The "extra characters after closing delimiter" error of
`InlineItemParser.Parse`. -/
def inlineTrailingError (lineNo pos : Nat) (remainder : String) : Err :=
  { code := ErrCodeFormat, line := lineNo, col := pos,
    msg := "extra characters after closing delimiter: \"" ++ remainder ++ "\"" }

/-- `InlineItemParser.Parse`: run the automaton from the given initial
state (`StateS1` for dicts, `StateS2` for lists) on one line of text,
then reject trailing non-whitespace. -/
def InlineParse (lineNo : Nat) (initial : Int) (input : String) : Except PErr Value :=
  let text := input.data
  match inlineRun lineNo text (text.length + 1) 0 0 initial
      [inlineFreshEntry initial 0] with
  | .error e => .error e
  | .ok (result, pos) =>
      let remainder := goTrim (text.drop pos)
      if remainder.length > 0 then
        .error (.goError (inlineTrailingError lineNo pos (String.mk remainder)))
      else .ok result

/-! ## Line scanner (`internal/parse/scanner.go`), modelled per content line -/

/-- Plain `Err` constructor helper. -/
def mkErr (code line col : Nat) (msg : String) : Err :=
  { code := code, line := line, col := col, msg := msg }

/-- Uppercase hexadecimal digits. -/
def hexDigit (n : Nat) : Char :=
  if n < 10 then Char.ofNat (48 + n) else Char.ofNat (55 + n)

def toHexUpperAux : Nat → Nat → List Char
  | 0, _ => []
  | fuel + 1, n =>
      if n = 0 then [] else toHexUpperAux fuel (n / 16) ++ [hexDigit (n % 16)]

/-- The `%X` rendering of a code point, padded to at least four digits as
in Go's `%#U` verb. -/
def toHexUpper4 (n : Nat) : String :=
  let ds := toHexUpperAux 8 n
  let ds := List.replicate (4 - ds.length) '0' ++ ds
  String.mk ds

/-- Go's `fmt` verb `%#U` applied to a rune: `U+0078 'x'`. -/
def goFormatRune (c : Char) : String :=
  "U+" ++ toHexUpper4 c.toNat ++ " '" ++ String.mk [c] ++ "'"

def isMatchingBracket (opn cls : Char) : Bool :=
  if opn = '[' then cls = ']'
  else if opn = '{' then cls = '}'
  else false

/-- Search of `ScanInlineKey`: the first `':'` at index `≥ j` (absolute
index `j`, suffix `rest.drop j` passed in) that is followed by a space or
by the end of the line.  Returns the index and whether a space follows. -/
def findKeyColon : List Char → Nat → Option (Nat × Bool)
  | [], _ => none
  | c :: rest2, j =>
      if c = ':' then
        match rest2 with
        | [] => some (j, false)
        | c2 :: _ => if c2 = ' ' then some (j, true) else findKeyColon rest2 (j + 1)
      else findKeyColon rest2 (j + 1)

/-- `ScanInlineKey`: scan the line body for `key[: value]`, starting the
colon search at index `start` of `body` (one character of a would-be tag
may already have been consumed).  The key slice always starts at the
indent position.  Go renders the key of the error message with `%q`;
plain double quotes stand in for Go's quoting here. -/
def scanInlineKey (lineNo indent : Nat) (body : List Char) (start : Nat) : Token :=
  match findKeyColon (body.drop start) start with
  | some (j, true) =>
      { lineNo := lineNo, colNo := 1, tokenType := .InlineDictKeyValue, indent := indent,
        content := [String.mk (goTrim (body.take j)), String.mk (body.drop (j + 2))],
        error := none }
  | some (j, false) =>
      { lineNo := lineNo, colNo := 1, tokenType := .InlineDictKey, indent := indent,
        content := [String.mk (goTrim (body.take j))], error := none }
  | none =>
      { lineNo := lineNo, colNo := 1, tokenType := .Undefined, indent := indent,
        content := [],
        error := some (mkErr (ErrCodeFormat + 3) lineNo 1
          ("dict key item \"" ++ String.mk (body.take (body.length - 1)) ++
            "\" not properly terminated by ':'")) }

/-- `recognizeInlineItem`: the trimmed line must end with the bracket
matching the opening one; the whole remainder of the line (from the
opening bracket, trailing spaces included) becomes the content. -/
def scanInlineItemToken (lineNo indent : Nat) (line body : List Char)
    (toktype : TokenType) (opn : Char) : Token :=
  let trimmed := goTrim line
  let closing := trimmed.getLastD ' '
  let err : Option Err :=
    if ¬isMatchingBracket opn closing then
      some (mkErr (ErrCodeFormat + 3) lineNo 1
        ("inline-item does not match opening tag: " ++ goFormatRune opn ++
          " vs " ++ goFormatRune closing))
    else none
  { lineNo := lineNo, colNo := 1, tokenType := toktype, indent := indent,
    content := [String.mk body], error := err }

/-- A single-line tag token (`recognizeItemTag` with a space after the
tag): the remainder after `tag + ' '` is the one content string. -/
def scanTagSingle (lineNo indent : Nat) (t : TokenType) (body : List Char) : Token :=
  { lineNo := lineNo, colNo := 1, tokenType := t, indent := indent,
    content := [String.mk (body.drop 2)], error := none }

/-- A multi-line tag token (`recognizeItemTag` with the tag at the end of
the line): no content string. -/
def scanTagMulti (lineNo indent : Nat) (t : TokenType) : Token :=
  { lineNo := lineNo, colNo := 1, tokenType := t, indent := indent,
    content := [], error := none }

/-- An "invalid character in indentation" error token (`ScanItem` /
`ScanIndentation`). -/
def scanIndentError (lineNo : Nat) (indent : Nat) (msg : String) : Token :=
  { lineNo := lineNo, colNo := 1, tokenType := .Undefined, indent := indent,
    content := [],
    error := some (mkErr ErrCodeFormat lineNo 1 msg) }

/-- `ScanItem` → `ScanIndentation` → `ScanItemBody` (→ `ScanInlineKey`),
for one content line: count the indentation, reject stray whitespace, and
classify the line body by its first character. -/
def scanLine (lineNo : Nat) (line : List Char) : Token :=
  let indent := (line.takeWhile (· = ' ')).length
  let body := line.drop indent
  match body with
  | [] =>
      -- a line of only spaces is blank and never reaches the scanner;
      -- Go would run ScanInlineKey into the end-of-line error
      scanInlineKey lineNo indent body 0
  | c :: body2 =>
      if c = '\t' then
        scanIndentError lineNo indent "invalid character in indentation: tab"
      else if goIsSpace c ∧ c ≠ '\n' then
        scanIndentError lineNo indent
          ("invalid character in indentation: " ++ goFormatRune c)
      else if c = '-' then
        match body2 with
        | [] => scanTagMulti lineNo indent .ListItemMultiline
        | c2 :: _ =>
            if c2 = ' ' then scanTagSingle lineNo indent .ListItem body
            else scanInlineKey lineNo indent body 1
      else if c = '>' then
        match body2 with
        | [] => scanTagMulti lineNo indent .StringMultiline
        | c2 :: _ =>
            if c2 = ' ' then scanTagSingle lineNo indent .StringMultiline body
            else scanInlineKey lineNo indent body 1
      else if c = ':' then
        match body2 with
        | [] => scanTagMulti lineNo indent .DictKeyMultiline
        | c2 :: _ =>
            if c2 = ' ' then scanTagSingle lineNo indent .DictKeyMultiline body
            else scanInlineKey lineNo indent body 1
      else if c = '[' then
        scanInlineItemToken lineNo indent line body .InlineList '['
      else if c = '{' then
        scanInlineItemToken lineNo indent line body .InlineDict '{'
      else
        scanInlineKey lineNo indent body 0

/-- Strip a leading byte-order mark from the first content line
(`NewLineBuffer` consumes it right after the first `AdvanceLine`). -/
def stripBOM : List (Nat × List Char) → List (Nat × List Char)
  | [] => []
  | (n, cs) :: rest =>
      (n, if cs.head? = some '﻿' then cs.tail else cs) :: rest

/-- The content lines of a document: logical lines numbered from 1, with
blank and comment lines removed and the BOM stripped. -/
def contentLines (input : String) : List (Nat × List Char) :=
  stripBOM (((splitLines input.data).enum.map (fun p => (p.1 + 1, p.2))).filter
    (fun p => ¬isIgnoredLine p.2))

/-- `ScanFileStart`: the first token; `DocRoot` unless the document has no
content line at all, with the "top-level item must not be indented" error
when the first content line starts with a space. -/
def fileStartToken (first : Nat × List Char) : Token :=
  { lineNo := first.1, colNo := 1, tokenType := .DocRoot, indent := 0, content := [],
    error :=
      if first.2.head? = some ' ' then
        some (mkErr (ErrCodeFormat + 1) first.1 1 "top-level item must not be indented")
      else none }

/-- The token stream the scanner produces on demand, together with the
line number an `EOF` token reports (`CurrentLine` after the buffer ran
off the end: one past the number of physical lines).  A document with no
content line yields no tokens at all (`NextToken` immediately reports
`EOF`, so the `EmptyDocument` branch of `ScanFileStart` is unreachable). -/
def scanTokens (input : String) : List Token × Nat :=
  let eofLine := (splitLines input.data).length + 1
  match contentLines input with
  | [] => ([], eofLine)
  | first :: restLines =>
      (fileStartToken first :: (first :: restLines).map (fun p => scanLine p.1 p.2), eofLine)

/-! ## Structural parser (`internal/parse/parser.go`) -/

/-- `maxNestingDepth` of `parser.go`. -/
def maxNestingDepth : Nat := 5000

/-- The parser state: the tokens the scanner has not yet produced, the
current token (`p.Token`), the parser stack, the line number an `EOF`
token reports, and the `MinimalMode` flag. -/
structure PState where
  toks : List Token
  cur : Token
  stack : Stack
  eofLine : Nat
  minimal : Bool
deriving Repr

/-- A scanner-produced `EOF` token (`NextToken` when the buffer is
exhausted). -/
def mkEOFToken (line : Nat) : Token :=
  { lineNo := line, colNo := 0, tokenType := .EOF, indent := 0, content := [], error := none }

/-- The parser's `p.Token` before the first `NextToken` call. -/
def undefinedToken : Token :=
  { lineNo := 0, colNo := 0, tokenType := .Undefined, indent := 0, content := [], error := none }

/-- `p.Token = p.Sc.NextToken()`. -/
def PState.next (s : PState) : PState :=
  match s.toks with
  | [] => { s with cur := mkEOFToken s.eofLine }
  | t :: ts => { s with cur := t, toks := ts }

/-- `Parser.pushNonterm`: push a fresh accumulator frame; `Keys` is
initialized (empty but non-nil) exactly for dicts. -/
def pushNonterm (isDict : Bool) (st : Stack) : Stack :=
  { values := [], keys := if isDict then some [] else none,
    key := none, error := none, nontermState := 0 } :: st

/-- `allowVoid` of `parser.go`. -/
def allowVoid (val : List String) (i : Nat) : String := val.getD i ""

/-- `Parser.parseListItem`: a single-line list item at the required
indent; deeper is the "invalid indent" error, shallower ends the list. -/
def Parser.parseListItem (indent : Nat) (s : PState) :
    PState × Except PErr (Option Value) :=
  if s.cur.indent > indent then
    (s, .error (.goError (makeFormatError
      "invalid indent: may only follow an item that does not already have a value")))
  else if s.cur.indent < indent then (s, .ok none)
  else
    match s.cur.content with
    | [] => (s, .error (.goPanic "index out of range"))
    | c :: _ =>
        let s2 := s.next
        match s2.cur.error with
        | some e => (s2, .error (.goError e))
        | none => (s2, .ok (some (.str c)))

/-- `Parser.parseDictKeyValuePair`: one `key: value` line. -/
def Parser.parseDictKeyValuePair (indent : Nat) (s : PState) :
    PState × Except PErr (Option String × Option Value) :=
  if s.cur.indent ≠ indent then (s, .ok (none, none))
  else
    match s.cur.content with
    | k :: v :: _ =>
        let s2 := s.next
        match s2.cur.error with
        | some e => (s2, .error (.goError e))
        | none => (s2, .ok (some k, some (.str v)))
    | _ => (s, .error (.goPanic "index out of range"))

/-- The `for` loop of `parseDictKeyValuePairWithMultilineKey`: stitch the
following `DictKeyMultiline` tokens at the same indent onto the key. -/
def Parser.stitchMultiKey (fuel : Nat) (indent : Nat) (acc : String) (s : PState) :
    PState × Except PErr String :=
  match fuel with
  | 0 => (s, .error (.goPanic "out of fuel"))
  | fuel + 1 =>
      let s2 := s.next
      match s2.cur.error with
      | some e => (s2, .error (.goError e))
      | none =>
          if s2.cur.tokenType ≠ .DictKeyMultiline ∨ s2.cur.indent ≠ indent then (s2, .ok acc)
          else Parser.stitchMultiKey fuel indent (acc ++ "\n" ++ allowVoid s2.cur.content 0) s2

/-- The `for` loop of `parseMultiString`: concatenate the following
`StringMultiline` tokens at the same indent, joined by `'\n'`. -/
def Parser.multiStringLoop (fuel : Nat) (indent : Nat) (acc : String) (s : PState) :
    PState × Except PErr String :=
  match fuel with
  | 0 => (s, .error (.goPanic "out of fuel"))
  | fuel + 1 =>
      let s2 := s.next
      match s2.cur.error with
      | some e => (s2, .error (.goError e))
      | none =>
          if s2.cur.tokenType ≠ .StringMultiline ∨ s2.cur.indent ≠ indent then (s2, .ok acc)
          else Parser.multiStringLoop fuel indent (acc ++ "\n" ++ allowVoid s2.cur.content 0) s2

/-- `Parser.parseMultiString`: a run of consecutive multi-line string
tokens at exactly the required indent reduces to one scalar. -/
def Parser.parseMultiString (fuel : Nat) (indent : Nat) (s : PState) :
    PState × Except PErr (Option Value) :=
  if s.cur.indent ≠ indent then (s, .ok none)
  else
    match Parser.multiStringLoop fuel indent (allowVoid s.cur.content 0) s with
    | (s2, .error e) => (s2, .error e)
    | (s2, .ok str) => (s2, .ok (some (.str str)))

/-- The eight mutually recursive parser functions, bundled so that the
recursion is structural on the fuel (each Go call cycle consumes at least
one token, so any fuel above the token count gives the Go behaviour).
`Parser.parseAny` and friends below are the projections. -/
structure ParserFuns where
  parseAny : Nat → Nat → PState → PState × Except PErr (Option Value)
  parseList : Nat → Nat → PState → PState × Except PErr (Option Value)
  parseListItems : Nat → Nat → PState → PState × Except PErr (List Value)
  parseListItemMultiline : Nat → Nat → PState → PState × Except PErr (Option Value)
  parseDict : Nat → Nat → PState → PState × Except PErr (Option Value)
  parseDictKeyValuePairs : Nat → Nat → PState → PState × Except PErr (Option (List String))
  parseDictKeyAnyValuePair : Nat → Nat → PState → PState × Except PErr (Option String × Option Value)
  parseDictKeyValuePairWithMultilineKey :
    Nat → Nat → PState → PState × Except PErr (Option String × Option Value)

/-- Out-of-fuel stub (never reached with sufficient fuel). -/
def noFuelFuns : ParserFuns where
  parseAny := fun _ _ s => (s, .error (.goPanic "out of fuel"))
  parseList := fun _ _ s => (s, .error (.goPanic "out of fuel"))
  parseListItems := fun _ _ s => (s, .error (.goPanic "out of fuel"))
  parseListItemMultiline := fun _ _ s => (s, .error (.goPanic "out of fuel"))
  parseDict := fun _ _ s => (s, .error (.goPanic "out of fuel"))
  parseDictKeyValuePairs := fun _ _ s => (s, .error (.goPanic "out of fuel"))
  parseDictKeyAnyValuePair := fun _ _ s => (s, .error (.goPanic "out of fuel"))
  parseDictKeyValuePairWithMultilineKey := fun _ _ s => (s, .error (.goPanic "out of fuel"))

/-- One fuel level of the parser functions.

`parseAny` (`Parser.parseAny` of `parser.go`): dispatch on the current
token type; a token above the required indent means "no value here"; the
global nesting-depth ceiling is enforced here, and `p.depth++` becomes
`depth + 1` on the calls into `parseList` / `parseDict`.

`parseList` / `parseListItems` / `parseListItemMultiline` and
`parseDict` / `parseDictKeyValuePairs` / `parseDictKeyAnyValuePair` /
`parseDictKeyValuePairWithMultilineKey` are the remaining functions of
`parser.go`, with `P` the next-lower fuel level.  In
`parseListItemMultiline` the indent check after the nested parse replaces
any nested error, exactly as in the Go code. -/
def mkParserFuns : Nat → ParserFuns
  | 0 => noFuelFuns
  | fuel + 1 =>
      let P := mkParserFuns fuel
      { parseAny := fun indent depth s =>
          if s.cur.indent < indent then (s, .ok none)
          else if depth ≥ maxNestingDepth then
            (s, .error (.goError (makeFormatError "exceeded max nesting depth")))
          else
            match s.cur.tokenType with
            | .StringMultiline => Parser.parseMultiString fuel s.cur.indent s
            | .InlineList =>
                if s.minimal then
                  (s, .error (.goError (makeParsingError s.cur ErrCodeFormat
                    "inline list syntax is not allowed in minimal mode")))
                else
                  match s.cur.content with
                  | [] => (s, .error (.goPanic "index out of range"))
                  | c :: _ =>
                      match InlineParse s.cur.lineNo StateS2 c with
                      | .error e => (s, .error e)
                      | .ok v =>
                          let s2 := s.next
                          match s2.cur.error with
                          | some e => (s2, .error (.goError e))
                          | none => (s2, .ok (some v))
            | .InlineDict =>
                if s.minimal then
                  (s, .error (.goError (makeParsingError s.cur ErrCodeFormat
                    "inline dict syntax is not allowed in minimal mode")))
                else
                  match s.cur.content with
                  | [] => (s, .error (.goPanic "index out of range"))
                  | c :: _ =>
                      match InlineParse s.cur.lineNo StateS1 c with
                      | .error e => (s, .error e)
                      | .ok v =>
                          let s2 := s.next
                          match s2.cur.error with
                          | some e => (s2, .error (.goError e))
                          | none => (s2, .ok (some v))
            | .ListItem => P.parseList indent (depth + 1) s
            | .ListItemMultiline => P.parseList indent (depth + 1) s
            | .InlineDictKeyValue => P.parseDict indent (depth + 1) s
            | .InlineDictKey => P.parseDict indent (depth + 1) s
            | .DictKeyMultiline =>
                if s.minimal then
                  (s, .error (.goError (makeParsingError s.cur ErrCodeFormat
                    "multi-line key syntax is not allowed in minimal mode")))
                else P.parseDict indent (depth + 1) s
            | t =>
                (s, .error (.goError (makeFormatError
                  ("internal error: unknown item type " ++ toString t.num))))
        parseList := fun _indent depth s =>
          let s1 : PState := { s with stack := pushNonterm false s.stack }
          match P.parseListItems s1.cur.indent depth s1 with
          | (s2, .error e) => (s2, .error e)
          | (s2, .ok _) =>
              match s2.stack with
              | [] => (s2, .error (.goPanic "Tos on empty stack"))
              | e :: rest =>
                  match e.ReduceToItem with
                  | none => (s2, .error (.goPanic
                      "mixed item: number of keys not equal to number of values"))
                  | some v => ({ s2 with stack := rest }, .ok (some v))
        parseListItems := fun indent depth s =>
          if s.cur.tokenType = .ListItem ∨ s.cur.tokenType = .ListItemMultiline then
            let r :=
              if s.cur.tokenType = .ListItem then Parser.parseListItem indent s
              else P.parseListItemMultiline indent depth s
            match r with
            | (s2, .error e) => (s2, .error e)
            | (s2, .ok (some v)) =>
                match Stack.PushKV s2.stack none v with
                | .error e => (s2, .error e)
                | .ok st => P.parseListItems indent depth { s2 with stack := st }
            | (s2, .ok none) =>
                match s2.stack with
                | [] => (s2, .error (.goPanic "Tos on empty stack"))
                | e :: _ => (s2, .ok e.values)
          else
            match s.stack with
            | [] => (s, .error (.goPanic "Tos on empty stack"))
            | e :: _ => (s, .ok e.values)
        parseListItemMultiline := fun indent depth s =>
          if s.cur.indent ≠ indent then (s, .ok none)
          else
            let s2 := s.next
            match s2.cur.error with
            | some e => (s2, .error (.goError e))
            | none =>
                if s2.cur.indent ≤ indent then (s2, .ok (some (.str "")))
                else
                  match P.parseAny s2.cur.indent depth s2 with
                  | (s3, r) =>
                      if s3.cur.indent > indent then
                        (s3, .error (.goError (makeFormatError
                          "invalid indent: may only follow an item that does not already have a value")))
                      else (s3, r)
        parseDict := fun indent depth s =>
          let s1 : PState := { s with stack := pushNonterm true s.stack }
          match P.parseDictKeyValuePairs s1.cur.indent depth s1 with
          | (s2, .error e) => (s2, .error e)
          | (s2, .ok _) =>
              match s2.stack with
              | [] => (s2, .error (.goPanic "Tos on empty stack"))
              | e :: rest =>
                  match e.ReduceToItem with
                  | none => (s2, .error (.goPanic
                      "mixed item: number of keys not equal to number of values"))
                  | some v =>
                      let s3 : PState := { s2 with stack := rest }
                      if s3.cur.indent > indent then
                        (s3, .error (.goError (makeFormatError "partial dedent")))
                      else (s3, .ok (some v))
        parseDictKeyValuePairs := fun indent depth s =>
          if s.cur.tokenType = .InlineDictKeyValue ∨ s.cur.tokenType = .InlineDictKey ∨
              s.cur.tokenType = .DictKeyMultiline then
            if s.cur.tokenType = .DictKeyMultiline ∧ s.minimal then
              (s, .error (.goError (makeParsingError s.cur ErrCodeFormat
                "multi-line key syntax is not allowed in minimal mode")))
            else
              let r :=
                if s.cur.tokenType = .InlineDictKeyValue then
                  Parser.parseDictKeyValuePair indent s
                else if s.cur.tokenType = .InlineDictKey then
                  P.parseDictKeyAnyValuePair indent depth s
                else P.parseDictKeyValuePairWithMultilineKey indent depth s
              match r with
              | (s2, .error e) => (s2, .error e)
              | (s2, .ok (k, some v)) =>
                  match Stack.PushKV s2.stack k v with
                  | .error e => (s2, .error e)
                  | .ok st => P.parseDictKeyValuePairs indent depth { s2 with stack := st }
              | (s2, .ok (_, none)) =>
                  match s2.stack with
                  | [] => (s2, .error (.goPanic "Tos on empty stack"))
                  | e :: _ => (s2, .ok e.keys)
          else
            match s.stack with
            | [] => (s, .error (.goPanic "Tos on empty stack"))
            | e :: _ => (s, .ok e.keys)
        parseDictKeyAnyValuePair := fun indent depth s =>
          if s.cur.indent ≠ indent then (s, .ok (none, none))
          else
            match s.cur.content with
            | [] => (s, .error (.goPanic "index out of range"))
            | k :: _ =>
                let s2 := s.next
                match s2.cur.error with
                | some e => (s2, .error (.goError e))
                | none =>
                    if s2.cur.indent ≤ indent then (s2, .ok (some k, some (.str "")))
                    else
                      match P.parseAny s2.cur.indent depth s2 with
                      | (s3, .error e) => (s3, .error e)
                      | (s3, .ok v) => (s3, .ok (some k, v))
        parseDictKeyValuePairWithMultilineKey := fun indent depth s =>
          if s.cur.indent ≠ indent then (s, .ok (none, none))
          else
            match Parser.stitchMultiKey fuel indent (allowVoid s.cur.content 0) s with
            | (s2, .error e) => (s2, .error e)
            | (s2, .ok key) =>
                if s2.cur.indent ≤ indent then
                  (s2, .error (.goError (makeFormatError "multiline key requires a value")))
                else
                  match P.parseAny s2.cur.indent depth s2 with
                  | (s3, .error e) => (s3, .error e)
                  | (s3, .ok v) => (s3, .ok (some key, v)) }

/-- `Parser.parseAny` of `parser.go` (see `mkParserFuns`). -/
def Parser.parseAny (fuel : Nat) (indent depth : Nat) (s : PState) :
    PState × Except PErr (Option Value) :=
  (mkParserFuns fuel).parseAny indent depth s

/-- `Parser.parseList` of `parser.go` (see `mkParserFuns`). -/
def Parser.parseList (fuel : Nat) (indent depth : Nat) (s : PState) :
    PState × Except PErr (Option Value) :=
  (mkParserFuns fuel).parseList indent depth s

/-- `Parser.parseListItems` of `parser.go` (see `mkParserFuns`). -/
def Parser.parseListItems (fuel : Nat) (indent depth : Nat) (s : PState) :
    PState × Except PErr (List Value) :=
  (mkParserFuns fuel).parseListItems indent depth s

/-- `Parser.parseListItemMultiline` of `parser.go` (see `mkParserFuns`). -/
def Parser.parseListItemMultiline (fuel : Nat) (indent depth : Nat) (s : PState) :
    PState × Except PErr (Option Value) :=
  (mkParserFuns fuel).parseListItemMultiline indent depth s

/-- `Parser.parseDict` of `parser.go` (see `mkParserFuns`). -/
def Parser.parseDict (fuel : Nat) (indent depth : Nat) (s : PState) :
    PState × Except PErr (Option Value) :=
  (mkParserFuns fuel).parseDict indent depth s

/-- `Parser.parseDictKeyValuePairs` of `parser.go` (see `mkParserFuns`). -/
def Parser.parseDictKeyValuePairs (fuel : Nat) (indent depth : Nat) (s : PState) :
    PState × Except PErr (Option (List String)) :=
  (mkParserFuns fuel).parseDictKeyValuePairs indent depth s

/-- `Parser.parseDictKeyAnyValuePair` of `parser.go` (see `mkParserFuns`). -/
def Parser.parseDictKeyAnyValuePair (fuel : Nat) (indent depth : Nat) (s : PState) :
    PState × Except PErr (Option String × Option Value) :=
  (mkParserFuns fuel).parseDictKeyAnyValuePair indent depth s

/-- `Parser.parseDictKeyValuePairWithMultilineKey` of `parser.go`
(see `mkParserFuns`). -/
def Parser.parseDictKeyValuePairWithMultilineKey (fuel : Nat) (indent depth : Nat)
    (s : PState) : PState × Except PErr (Option String × Option Value) :=
  (mkParserFuns fuel).parseDictKeyValuePairWithMultilineKey indent depth s

/-- `Parser.parseDocument`: health-check token, first item token, one
`parseAny` at indent 0, then the stream must be at `EOF`. -/
def Parser.parseDocument (fuel : Nat) (s0 : PState) :
    PState × Except PErr (Option Value) :=
  let s1 := s0.next
  match s1.cur.error with
  | some e => (s1, .error (.goError e))
  | none =>
      if s1.cur.tokenType = .EOF ∨ s1.cur.tokenType = .EmptyDocument then (s1, .ok none)
      else
        let s2 := s1.next
        match s2.cur.error with
        | some e => (s2, .error (.goError e))
        | none =>
            match Parser.parseAny fuel 0 0 s2 with
            | (s3, .error e) => (s3, .error e)
            | (s3, .ok v) =>
                if s3.cur.tokenType ≠ .EOF then
                  (s3, .error (.goError (makeParsingError s3.cur ErrCodeFormat
                    "unused content following valid input")))
                else (s3, .ok v)

/-- Fuel that is always sufficient: the parser consumes at least one
token per recursion cycle and the chain between two token consumptions
passes through at most a handful of fueled functions. -/
def decodeFuel (input : String) : Nat := 8 * input.length + 64

/-- `Parse` of `parse.go` with an explicit minimal-mode flag
(`parseWithConfig`): scan, parse the document.  `WrapResult` with the
default empty `TopLevel` option is the identity and is omitted. -/
def decodeWith (minimal : Bool) (input : String) : Except PErr (Option Value) :=
  let p := scanTokens input
  (Parser.parseDocument (decodeFuel input)
    { toks := p.1, cur := undefinedToken, stack := [], eofLine := p.2,
      minimal := minimal }).2

/-- `nestedtext.Parse` with no options. -/
def decode (input : String) : Except PErr (Option Value) := decodeWith false input

/-! ## Encoder (the encoder document appended to `readme_test.go`),
restricted to the dynamic types a decoded value can have: `string`,
`[]interface{}` and `map[string]interface{}`.  The `inlineLimit`
configuration only affects the `[]string` / `[]int` branches, which a
decoded value never takes, so it does not appear here. -/

/-- Go string comparison `a < b`: bytewise lexicographic, which on UTF-8
text coincides with this code-point-wise comparison. -/
def goStrLtChars : List Char → List Char → Bool
  | [], [] => false
  | [], _ :: _ => true
  | _ :: _, [] => false
  | a :: as, b :: bs =>
      if a.val < b.val then true
      else if b.val < a.val then false
      else goStrLtChars as bs

def goStrLt (a b : String) : Bool := goStrLtChars a.data b.data

/-- Insert one entry into a key-sorted entry list. -/
def insertEntry (e : String × Value) : List (String × Value) → List (String × Value)
  | [] => [e]
  | f :: rest => if goStrLt e.1 f.1 then e :: f :: rest else f :: insertEntry e rest

/-- The key sort the map branch of `encodeReflected` performs
(`sort.Slice` with `keys[i] < keys[j]`); Go compares strings bytewise,
which for UTF-8 text coincides with the code-point order used here.  On
the unique key lists of a decoded mapping any correct sort produces the
Go key order. -/
def sortEntries : List (String × Value) → List (String × Value)
  | [] => []
  | e :: rest => insertEntry e (sortEntries rest)

mutual

/-- Executable tree size, used as encoder fuel. -/
def Value.fuelOf : Value → Nat
  | .str _ => 1
  | .list items => Value.fuelOfItems items + 1
  | .dict entries => Value.fuelOfEntries entries + 1
termination_by structural v => v

/-- Executable tree size of a value list. -/
def Value.fuelOfItems : List Value → Nat
  | [] => 0
  | v :: rest => Value.fuelOf v + Value.fuelOfItems rest
termination_by structural l => l

/-- Executable tree size of an entry list. -/
def Value.fuelOfEntries : List (String × Value) → Nat
  | [] => 0
  | e :: rest => Value.fuelOf e.2 + Value.fuelOfEntries rest
termination_by structural l => l

end

/-- The item categories `encAsKey`, `encAsString`, `encAsList`,
`encAsDict` and their forbidden characters (`encItemPattern`). -/
def encItemPattern (what : Nat) : List Char :=
  match what with
  | 0 => [':', '\n']
  | 1 => ['\n']
  | 2 => ['[', ']', ',', '\n']
  | _ => ['{', '}', ',', ':', '\n']

/-- `strings.ContainsAny`. -/
def containsAny (s : String) (chars : List Char) : Bool :=
  s.data.any (· ∈ chars)

/-- `isInlineable` on a decoded value: container kinds are never
inlineable; the empty string and strings holding a forbidden character
are not; any other string is, as itself. -/
def isInlineable (what : Nat) : Value → Option String
  | .str s =>
      if s = "" then none
      else if containsAny s (encItemPattern what) then none
      else some s
  | _ => none

/-- `strings.Split(s, "\n")`: split on newlines, keeping empty
segments; the empty string yields one empty segment. -/
def splitOnNL : List Char → List (List Char)
  | [] => [[]]
  | c :: rest =>
      if c = '\n' then [] :: splitOnNL rest
      else
        match splitOnNL rest with
        | [] => [[c]]
        | l :: ls => (c :: l) :: ls

/-- `Encoder.indent`: `indent` repetitions of `indentSize` spaces. -/
def encIndent (indentSize indent : Nat) : String :=
  String.mk (List.replicate (indent * indentSize) ' ')

/-- `Encoder.encode` on a decoded value tree, with
`Encoder.encodeIfNotEmpty` (an empty string value is simply not written;
anything else is encoded one level deeper) inlined as the local
`encIfNotEmpty`.  The `fuel` argument makes the nested recursion total;
any fuel above the tree depth yields the Go output. -/
def encodeVal : Nat → Nat → Nat → Value → String
  | 0, _, _, _ => ""
  | fuel + 1, indentSize, indent, v =>
      let encIfNotEmpty : Nat → Value → String := fun ind w =>
        match w with
        | .str "" => ""
        | w => encodeVal fuel indentSize (ind + 1) w
      match v with
      | .str t =>
          match isInlineable 1 (.str t) with
          | some s => encIndent indentSize indent ++ "> " ++ s ++ "\n"
          | none =>
              String.join ((splitOnNL t.data).map
                (fun s => encIndent indentSize indent ++ "> " ++ String.mk s ++ "\n"))
      | .list items =>
          String.join (items.map (fun item =>
            encIndent indentSize indent ++ "-" ++
            match isInlineable 2 item with
            | some b => " " ++ b ++ "\n"
            | none => "\n" ++ encodeVal fuel indentSize (indent + 1) item))
      | .dict entries =>
          if entries.isEmpty then "{}\n"
          else
            String.join ((sortEntries entries).map (fun e =>
              match isInlineable 0 (.str e.1) with
              | some kb =>
                  encIndent indentSize indent ++ kb ++ ":" ++
                  (match isInlineable 1 e.2 with
                   | some vb => " " ++ vb ++ "\n"
                   | none => "\n" ++ encIfNotEmpty indent e.2)
              | none =>
                  String.join ((splitOnNL e.1.data).map (fun s =>
                    encIndent indentSize indent ++
                    (if s = [] then ":" else ": " ++ String.mk s) ++ "\n")) ++
                  encIfNotEmpty indent e.2))

/-- `Encode` / `Marshal` with the default configuration (indent width 2):
the textual NestedText form of a decoded value tree. -/
def Encode (v : Value) : String :=
  encodeVal (Value.fuelOf v + 1) 2 0 v


/-! ## Helper lemmas for the claim theorems -/

/-- Segments joined by a newline character. -/
def joinNL : List String → String
  | [] => ""
  | [x] => x
  | x :: y :: rest => x ++ "\n" ++ joinNL (y :: rest)

theorem joinNL_cons_cons (x y : String) (ys : List String) :
    joinNL (x :: y :: ys) = x ++ "\n" ++ joinNL (y :: ys) := rfl

theorem foldl_joinNL (x : String) (xs : List String) :
    List.foldl (fun a b => a ++ "\n" ++ b) x xs = joinNL (x :: xs) := by
  induction xs generalizing x with
  | nil => rfl
  | cons y ys ih =>
      have step : joinNL ((x ++ "\n" ++ y) :: ys) = x ++ "\n" ++ joinNL (y :: ys) := by
        cases ys with
        | nil => rfl
        | cons z zs =>
            rw [joinNL_cons_cons, joinNL_cons_cons]
            simp [String.append_assoc]
      simp only [List.foldl]
      rw [ih, step, joinNL_cons_cons]

/-- Running the `parseMultiString` loop over a run of `StringMultiline`
tokens at indent `i`, terminated by a token that breaks the run. -/
theorem foldl_tokens_joinNL (first : Token) (run : List Token) :
    List.foldl (fun a tok => a ++ "\n" ++ allowVoid tok.content 0)
      (allowVoid first.content 0) run =
      joinNL ((first :: run).map (fun tok => allowVoid tok.content 0)) := by
  rw [List.map_cons, ← foldl_joinNL, ← List.foldl_map]

theorem multiStringLoop_run (i : Nat) (t : Token) (rest : List Token)
    (ht : t.error = none) (hbrk : ¬(t.tokenType = .StringMultiline ∧ t.indent = i)) :
    ∀ (run : List Token) (fuel : Nat) (acc : String) (s : PState),
      (∀ tok ∈ run, tok.tokenType = .StringMultiline ∧ tok.indent = i ∧ tok.error = none) →
      s.toks = run ++ t :: rest →
      run.length < fuel →
      Parser.multiStringLoop fuel i acc s =
        ({ s with cur := t, toks := rest },
         .ok (List.foldl (fun a tok => a ++ "\n" ++ allowVoid tok.content 0) acc run)) := by
  intro run
  induction run with
  | nil =>
      intro fuel acc s _ htoks hfuel
      match fuel, hfuel with
      | fuel + 1, _ =>
        simp only [List.nil_append] at htoks
        simp only [Parser.multiStringLoop, PState.next, htoks, ht, List.foldl]
        have : ¬(t.tokenType = .StringMultiline ∧ t.indent = i) := hbrk
        by_cases h1 : t.tokenType = .StringMultiline
        · have h2 : t.indent ≠ i := fun h => this ⟨h1, h⟩
          simp [h1, h2]
        · simp [h1]
  | cons tok run' ih =>
      intro fuel acc s hrun htoks hfuel
      match fuel, hfuel with
      | fuel + 1, hf =>
        have hprops := hrun tok (by simp)
        simp only [List.cons_append] at htoks
        simp only [Parser.multiStringLoop, PState.next, htoks, hprops.2.2]
        rw [if_neg (by simp [hprops.1, hprops.2.1])]
        have := ih fuel (acc ++ "\n" ++ allowVoid tok.content 0)
          { s with cur := tok, toks := run' ++ t :: rest }
          (fun x hx => hrun x (by simp [hx])) (by simp)
          (by simp only [List.length_cons] at hf; omega)
        simp only [List.foldl]
        exact this

/-! ## Claim theorems -/

/-- C1: the round-trip law fails on the code: decoding the valid input
`"{:}"` produces the mapping with the single entry `"" ↦ ""`; encoding
that value (default configuration, minimal mode off on both sides) yields
`":\n"`, and re-decoding `":\n"` fails with "multiline key requires a
value" instead of reproducing an equivalent value.  (The encoder renders
the non-inlineable empty key as a multi-line key and then skips the empty
value entirely, producing a document its own decoder rejects.) -/
theorem claim_C1_roundtrip_fails_on_empty_key :
    decode "{:}" = .ok (some (.dict [("", .str "")])) ∧
    Encode (.dict [("", .str "")]) = ":\n" ∧
    decode (Encode (.dict [("", .str "")])) =
      .error (.goError (makeFormatError "multiline key requires a value")) :=
  ⟨by rfl, by rfl, by rfl⟩

/-- C2: pushing a key that already exists in the mapping frame being
built fails with the duplicate-key error (never last-write-wins), so the
whole decode fails; decoding `"a: 1\nb: 2\na: 3"` fails with it while
`"a: 1\nb: 2\nc: 3"` yields exactly the three-entry mapping. -/
theorem claim_C2_duplicate_keys :
    (∀ (tos : StackEntry) (rest : Stack) (ks : List String) (k : String) (v : Value),
      tos.keys = some ks → k ∈ ks →
      Stack.PushKV (tos :: rest) (some k) v =
        .error (.goError (makeFormatError ("duplicate key: " ++ k)))) ∧
    decode "a: 1\nb: 2\na: 3" = .error (.goError (makeFormatError "duplicate key: a")) ∧
    decode "a: 1\nb: 2\nc: 3" =
      .ok (some (.dict [("a", .str "1"), ("b", .str "2"), ("c", .str "3")])) := by
  refine ⟨?_, by rfl, by rfl⟩
  intro tos rest ks k v hks hmem
  simp only [Stack.PushKV, hks, if_pos hmem]

/-- C2 witness: the duplicate-key branch at a concrete stack. -/
theorem claim_C2_witness :
    Stack.PushKV [⟨[.str "1", .str "2"], some ["a", "b"], none, none, 0⟩]
        (some "a") (.str "3") =
      .error (.goError (makeFormatError "duplicate key: a")) :=
  claim_C2_duplicate_keys.1 ⟨[.str "1", .str "2"], some ["a", "b"], none, none, 0⟩
    [] ["a", "b"] "a" (.str "3") rfl (by decide)

/-- C3: decoding the inline line `[]` yields an empty sequence and `{}`
an empty mapping; `[ ]` (whitespace-only content between the delimiters)
yields a sequence containing exactly one empty-string value; `[,]` yields
a sequence of exactly two empty-string values. -/
theorem claim_C3_inline_empty_collections :
    decode "[]" = .ok (some (.list [])) ∧
    decode "{}" = .ok (some (.dict [])) ∧
    decode "[ ]" = .ok (some (.list [.str ""])) ∧
    decode "[,]" = .ok (some (.list [.str "", .str ""])) :=
  ⟨by rfl, by rfl, by rfl, by rfl⟩

/-- The `bufio` scanner limit of `linebuf.go`: `NewLineBuffer` builds its
`bufio.Scanner` with the default `MaxScanTokenSize` of 64 KiB and never
calls `Buffer`, so a document that makes the scanner buffer that much
without finding a line terminator fails with `bufio.ErrTooLong`; when
that happens on the very first line, `AdvanceLine` returns before
`buf.Line` is set and the first `IsEof` dereferences the nil reader — a
Go panic.  The line model `splitLines` carries no such bound, so it is
faithful only for documents below the cap, and every theorem here that
quantifies over raw input documents is stated for documents strictly
within it. -/
def maxScanTokenSize : Nat := 65536

/-- The UTF-8 byte length of the input (Go reads the document as bytes,
so the scanner cap is a byte bound, not a character bound). -/
def utf8Len (cs : List Char) : Nat := (cs.map Char.utf8Size).sum

/-- The whole document is strictly within the scanner's buffer cap, so
`bufio` can always deliver every line and the line model is exact. -/
abbrev WithinScanCap (input : String) : Prop := utf8Len input.data < maxScanTokenSize

/-- C10: within the scanner's 64 KiB buffer cap, an input with no content
line at all (empty, or consisting only of blank and comment lines)
decodes without error to the absent (`none`) result — no scalar,
sequence or mapping is produced.  Beyond the cap the claim fails in the
Go code: the unconfigured `bufio.Scanner` cannot split e.g. a single
blank line of 70000 spaces, `AdvanceLine` gets `ErrTooLong` before
`buf.Line` is ever set, and the first `NextToken` panics on the nil
reader instead of returning the claimed nil success. -/
theorem claim_C10_empty_input :
    (∀ input : String, WithinScanCap input → contentLines input = [] →
      decode input = .ok none) ∧
    decode "" = .ok none ∧
    decode "# only a comment\n\n" = .ok none := by
  refine ⟨?_, by rfl, by rfl⟩
  intro input _ h
  simp only [decode, decodeWith, scanTokens, h, Parser.parseDocument, PState.next,
    mkEOFToken, undefinedToken]
  simp

/-- C10 witness: the universal part applied to a comment-only document. -/
theorem claim_C10_witness :
    WithinScanCap "# x\n" ∧ contentLines "# x\n" = [] ∧ decode "# x\n" = .ok none :=
  ⟨by decide, by rfl, claim_C10_empty_input.1 "# x\n" (by decide) (by rfl)⟩

/-- C8: a run of consecutive multi-line string tokens at exactly the
required indent reduces to a single scalar equal to the segment contents
joined by newlines, stopping at the first token of different type or
indent; decoding `"> Hello\n> World\n"` yields the scalar
`"Hello\nWorld"` as the sole top-level value. -/
theorem claim_C8_multiline_string_stitching :
    (∀ (i fuel : Nat) (t : Token) (run rest : List Token) (s : PState),
      s.cur.tokenType = .StringMultiline → s.cur.indent = i →
      s.toks = run ++ t :: rest →
      (∀ tok ∈ run, tok.tokenType = .StringMultiline ∧ tok.indent = i ∧ tok.error = none) →
      t.error = none → ¬(t.tokenType = .StringMultiline ∧ t.indent = i) →
      run.length < fuel →
      Parser.parseMultiString fuel i s =
        ({ s with cur := t, toks := rest },
         .ok (some (.str (joinNL ((s.cur :: run).map (fun tok => allowVoid tok.content 0))))))) ∧
    decode "> Hello\n> World\n" = .ok (some (.str "Hello\nWorld")) := by
  refine ⟨?_, by rfl⟩
  intro i fuel t run rest s _ hind htoks hrun ht hbrk hfuel
  simp only [Parser.parseMultiString, hind, if_neg (by omega : ¬ i ≠ i)]
  rw [multiStringLoop_run i t rest ht hbrk run fuel (allowVoid s.cur.content 0) s hrun htoks hfuel]
  simp [foldl_tokens_joinNL]

/-- C8 witness: the run lemma applied to a concrete two-token run. -/
theorem claim_C8_witness :
    Parser.parseMultiString 3 0
      { toks := [⟨2, 1, .StringMultiline, 0, ["World"], none⟩, mkEOFToken 3],
        cur := ⟨1, 1, .StringMultiline, 0, ["Hello"], none⟩,
        stack := [], eofLine := 3, minimal := false } =
      ({ toks := [], cur := mkEOFToken 3, stack := [], eofLine := 3, minimal := false },
       .ok (some (.str "Hello\nWorld"))) := by
  have := claim_C8_multiline_string_stitching.1 0 3 (mkEOFToken 3)
    [⟨2, 1, .StringMultiline, 0, ["World"], none⟩] []
    { toks := [⟨2, 1, .StringMultiline, 0, ["World"], none⟩, mkEOFToken 3],
      cur := ⟨1, 1, .StringMultiline, 0, ["Hello"], none⟩,
      stack := [], eofLine := 3, minimal := false }
    (by rfl) (by rfl) (by rfl) (by decide) (by rfl) (by decide) (by decide)
  simpa using this

/-- C5: a multi-line key (stitched from consecutive `: ` segment lines at
the same indent) must be followed by a token at strictly greater indent:
if the token ending the stitch is not deeper, the result is the
"multiline key requires a value" error — whereas a single-line key whose
following token is at equal or lesser indent receives the empty string as
its value.  In particular decoding `": key\n: continued\na: 1"` fails. -/
theorem claim_C5_multiline_key_requires_value :
    (∀ (fuel indent depth : Nat) (s s2 : PState) (key : String),
      s.cur.indent = indent →
      Parser.stitchMultiKey fuel indent (allowVoid s.cur.content 0) s = (s2, .ok key) →
      s2.cur.indent ≤ indent →
      Parser.parseDictKeyValuePairWithMultilineKey (fuel + 1) indent depth s =
        (s2, .error (.goError (makeFormatError "multiline key requires a value")))) ∧
    (∀ (fuel indent depth : Nat) (s : PState) (k : String) (cs : List String),
      s.cur.indent = indent → s.cur.content = k :: cs →
      (s.next).cur.error = none → (s.next).cur.indent ≤ indent →
      Parser.parseDictKeyAnyValuePair (fuel + 1) indent depth s =
        (s.next, .ok (some k, some (.str "")))) ∧
    decode ": key\n: continued\na: 1" =
      .error (.goError (makeFormatError "multiline key requires a value")) := by
  refine ⟨?_, ?_, by rfl⟩
  · intro fuel indent depth s s2 key h1 h2 h3
    simp only [Parser.parseDictKeyValuePairWithMultilineKey, mkParserFuns,
      h1, if_neg (by omega : ¬ indent ≠ indent), h2]
    simp [h3]
  · intro fuel indent depth s k cs h1 h2 h3 h4
    simp only [Parser.parseDictKeyAnyValuePair, mkParserFuns,
      h1, if_neg (by omega : ¬ indent ≠ indent), h2, h3]
    simp [h4]

/-- C5 witness: both universal parts at concrete states. -/
theorem claim_C5_witness :
    Parser.parseDictKeyValuePairWithMultilineKey 2 0 1
      { toks := [⟨2, 1, .InlineDictKeyValue, 0, ["a", "1"], none⟩],
        cur := ⟨1, 1, .DictKeyMultiline, 0, ["key"], none⟩,
        stack := [], eofLine := 3, minimal := false } =
      ({ toks := [], cur := ⟨2, 1, .InlineDictKeyValue, 0, ["a", "1"], none⟩,
         stack := [], eofLine := 3, minimal := false },
       .error (.goError (makeFormatError "multiline key requires a value"))) ∧
    Parser.parseDictKeyAnyValuePair 1 0 1
      { toks := [⟨2, 1, .InlineDictKeyValue, 0, ["b", "1"], none⟩],
        cur := ⟨1, 1, .InlineDictKey, 0, ["a"], none⟩,
        stack := [], eofLine := 3, minimal := false } =
      ({ toks := [], cur := ⟨2, 1, .InlineDictKeyValue, 0, ["b", "1"], none⟩,
         stack := [], eofLine := 3, minimal := false },
       .ok (some "a", some (.str ""))) := by
  constructor
  · have := claim_C5_multiline_key_requires_value.1 1 0 1
      { toks := [⟨2, 1, .InlineDictKeyValue, 0, ["a", "1"], none⟩],
        cur := ⟨1, 1, .DictKeyMultiline, 0, ["key"], none⟩,
        stack := [], eofLine := 3, minimal := false }
      ({ toks := [], cur := ⟨2, 1, .InlineDictKeyValue, 0, ["a", "1"], none⟩,
         stack := [], eofLine := 3, minimal := false })
      "key" (by rfl) (by rfl) (by decide)
    simpa using this
  · have := claim_C5_multiline_key_requires_value.2.1 0 0 1
      { toks := [⟨2, 1, .InlineDictKeyValue, 0, ["b", "1"], none⟩],
        cur := ⟨1, 1, .InlineDictKey, 0, ["a"], none⟩,
        stack := [], eofLine := 3, minimal := false }
      "a" [] (by rfl) (by rfl) (by rfl) (by decide)
    simpa using this

/-- C6: while consuming list items at a required indent, a single-line
list item token at greater indent (it can only arrive after an item that
already carries a value) makes the decode fail with the "invalid indent"
error; a token at lesser indent ends the list without error; decoding
`"- Hello\n  - World!\n"` fails with exactly that error. -/
theorem claim_C6_list_indent :
    (∀ (indent : Nat) (s : PState), s.cur.indent > indent →
      Parser.parseListItem indent s =
        (s, .error (.goError (makeFormatError
          "invalid indent: may only follow an item that does not already have a value")))) ∧
    (∀ (indent : Nat) (s : PState), s.cur.indent < indent →
      Parser.parseListItem indent s = (s, .ok none)) ∧
    (∀ (fuel indent depth : Nat) (s : PState) (e : StackEntry) (rest : Stack),
      s.cur.tokenType = .ListItem → s.cur.indent < indent → s.stack = e :: rest →
      Parser.parseListItems (fuel + 1) indent depth s = (s, .ok e.values)) ∧
    decode "- Hello\n  - World!\n" =
      .error (.goError (makeFormatError
        "invalid indent: may only follow an item that does not already have a value")) := by
  refine ⟨?_, ?_, ?_, by rfl⟩
  · intro indent s h
    simp only [Parser.parseListItem, if_pos h]
  · intro indent s h
    simp only [Parser.parseListItem, if_neg (by omega : ¬ s.cur.indent > indent), if_pos h]
  · intro fuel indent depth s e rest htype hlt hstack
    simp only [Parser.parseListItems, mkParserFuns, htype, if_pos (Or.inl rfl), if_pos rfl,
      Parser.parseListItem, if_neg (by omega : ¬ s.cur.indent > indent), if_pos hlt, hstack]
    simp [hstack]

/-- C6 witness: the three universal parts at concrete states. -/
theorem claim_C6_witness :
    Parser.parseListItem 0
      { toks := [], cur := ⟨2, 1, .ListItem, 2, ["World!"], none⟩,
        stack := [], eofLine := 3, minimal := false } =
      ({ toks := [], cur := ⟨2, 1, .ListItem, 2, ["World!"], none⟩,
         stack := [], eofLine := 3, minimal := false },
       .error (.goError (makeFormatError
         "invalid indent: may only follow an item that does not already have a value"))) ∧
    Parser.parseListItem 2
      { toks := [], cur := ⟨2, 1, .ListItem, 0, ["x"], none⟩,
        stack := [], eofLine := 3, minimal := false } =
      ({ toks := [], cur := ⟨2, 1, .ListItem, 0, ["x"], none⟩,
         stack := [], eofLine := 3, minimal := false }, .ok none) ∧
    Parser.parseListItems 1 2 1
      { toks := [], cur := ⟨2, 1, .ListItem, 0, ["x"], none⟩,
        stack := [⟨[.str "v"], none, none, none, 0⟩], eofLine := 3, minimal := false } =
      ({ toks := [], cur := ⟨2, 1, .ListItem, 0, ["x"], none⟩,
         stack := [⟨[.str "v"], none, none, none, 0⟩], eofLine := 3, minimal := false },
       .ok [.str "v"]) := by
  refine ⟨?_, ?_, ?_⟩
  · exact claim_C6_list_indent.1 0
      { toks := [], cur := ⟨2, 1, .ListItem, 2, ["World!"], none⟩,
        stack := [], eofLine := 3, minimal := false } (by decide)
  · exact claim_C6_list_indent.2.1 2
      { toks := [], cur := ⟨2, 1, .ListItem, 0, ["x"], none⟩,
        stack := [], eofLine := 3, minimal := false } (by decide)
  · exact claim_C6_list_indent.2.2.1 0 2 1
      { toks := [], cur := ⟨2, 1, .ListItem, 0, ["x"], none⟩,
        stack := [⟨[.str "v"], none, none, none, 0⟩], eofLine := 3, minimal := false }
      ⟨[.str "v"], none, none, none, 0⟩ [] (by rfl) (by decide) (by rfl)

/-- The single-line document of `n` nested inline lists. -/
def bracketChars (n : Nat) : List Char :=
  List.replicate n '[' ++ List.replicate n ']'

def bracketString (n : Nat) : String := String.mk (bracketChars n)

/-- `wrapIter j v` wraps `v` in `j` singleton sequences. -/
def wrapIter : Nat → Value → Value
  | 0, v => v
  | j + 1, v => wrapIter j (.list [v])

/-- A list-shaped inline frame with the given values and resume state. -/
def closeTopFrame (vs : List Value) (ns : Int) : StackEntry :=
  { values := vs, keys := none, key := none, error := none, nontermState := ns }

/-- The inline stack during the closing phase: the top frame holds `vs`,
below it `k` still-empty child frames, at the bottom the root frame. -/
def closeStack : Nat → List Value → Stack
  | 0, vs => [closeTopFrame vs 0]
  | k + 1, vs => closeTopFrame vs 10 :: closeStack k []

theorem closeStack_ne_nil (k : Nat) (vs : List Value) : closeStack k vs ≠ [] := by
  cases k <;> simp [closeStack]

theorem replicate_child_append_root (k : Nat) :
    List.replicate k (closeTopFrame [] 10) ++ [closeTopFrame [] 0] = closeStack k [] := by
  induction k with
  | zero => simp [closeStack]
  | succ k ih => simp [List.replicate_succ, closeStack, ih]

theorem drop_succ_of_drop {α : Type} (l : List α) (pos : Nat) (c : α) (rest : List α)
    (h : l.drop pos = c :: rest) : l.drop (pos + 1) = rest := by
  have h2 : List.drop 1 (List.drop pos l) = List.drop 1 (c :: rest) := by rw [h]
  simpa [List.drop_drop, Nat.add_comm] using h2

theorem replicate_append_cons {α : Type} (j : Nat) (a : α) (l : List α) :
    List.replicate j a ++ a :: l = a :: (List.replicate j a ++ l) := by
  induction j with
  | zero => simp
  | succ j ih => simp [List.replicate_succ, ih]

/-- Consuming `j` further `'['` characters from state 7 pushes `j` fresh
child list frames (each with resume state 10) and moves the marker to the
new position. -/
theorem inlineRun_opens (L : Nat) (text : List Char) :
    ∀ (j fuel pos marker : Nat) (st : Stack) (suffix : List Char),
      st ≠ [] →
      text.drop pos = List.replicate j '[' ++ suffix →
      inlineRun L text (fuel + j) pos marker 7 st =
        inlineRun L text fuel (pos + j) (if j = 0 then marker else pos + j) 7
          (List.replicate j (closeTopFrame [] 10) ++ st) := by
  intro j
  induction j with
  | zero => intro fuel pos marker st suffix _ _; simp
  | succ j ih =>
      intro fuel pos marker st suffix hne hdrop
      rw [List.replicate_succ, List.cons_append] at hdrop
      match st, hne with
      | t :: ts, _ =>
        have hstep :
            inlineRun L text (fuel + (j + 1)) pos marker 7 (t :: ts) =
              inlineRun L text (fuel + j) (pos + 1) (pos + 1) 7
                (closeTopFrame [] 10 :: t :: ts) := by
          show inlineRun L text ((fuel + j) + 1) pos marker 7 (t :: ts) = _
          simp +decide only [inlineRun, inlineRunStep, hdrop, List.head?, InlineTokenFor,
            inlineStateMachine, IsErrorState, IsNonterm, IsAccept, IsGhost, stateIndex,
            inlineAction, inlineFreshEntry, StateS1, StateS2, StateA1, StateA2]
          rfl
        rw [hstep, ih (fuel) (pos + 1) (pos + 1) (closeTopFrame [] 10 :: t :: ts) suffix
          (by simp) (drop_succ_of_drop text pos '[' _ hdrop)]
        have hm : (if j = 0 then pos + 1 else pos + 1 + j) = pos + (j + 1) := by
          split <;> omega
        rw [hm, show pos + 1 + j = pos + (j + 1) by omega]
        have : (if j + 1 = 0 then marker else pos + (j + 1)) = pos + (j + 1) := by simp
        rw [this, List.replicate_succ, List.cons_append, replicate_append_cons]

/-- Consuming the closing `']'` characters from a ghost state pops one
frame per character, wrapping the accumulated value in one singleton
sequence per popped frame. -/
theorem inlineRun_closes (L : Nat) (text : List Char) :
    ∀ (k : Nat) (vs : List Value) (fuel pos marker : Nat) (suffix : List Char),
      text.drop pos = List.replicate (k + 1) ']' ++ suffix →
      inlineRun L text (fuel + k + 1) pos marker 10 (closeStack k vs) =
        .ok (wrapIter k (.list vs), pos + k + 1) := by
  intro k
  induction k with
  | zero =>
      intro vs fuel pos marker suffix hdrop
      rw [List.replicate_succ, List.cons_append] at hdrop
      show inlineRun L text (fuel + 0 + 1) pos marker 10 [closeTopFrame vs 0] = _
      simp +decide [inlineRun, inlineRunStep, hdrop, InlineTokenFor,
        inlineStateMachine, IsErrorState, IsNonterm, IsAccept, IsGhost,
        inlineAction, closeTopFrame, StackEntry.ReduceToItem, wrapIter]
  | succ k ih =>
      intro vs fuel pos marker suffix hdrop
      rw [List.replicate_succ, List.cons_append] at hdrop
      have hstep :
          inlineRun L text (fuel + (k + 1) + 1) pos marker 10 (closeStack (k + 1) vs) =
            inlineRun L text (fuel + k + 1) (pos + 1) marker 10 (closeStack k [.list vs]) := by
        show inlineRun L text ((fuel + k + 1) + 1) pos marker 10
          (closeTopFrame vs 10 :: closeStack k []) = _
        obtain ⟨parent, tail, hcs⟩ : ∃ parent tail, closeStack k [] = parent :: tail := by
          cases hk : closeStack k [] with
          | nil => exact absurd hk (closeStack_ne_nil k [])
          | cons p t => exact ⟨p, t, rfl⟩
        · have hkey : parent.key = none := by
            cases k <;> simp [closeStack, closeTopFrame] at hcs <;>
              simp [← hcs.1, closeTopFrame]
          have hvals : parent.values = [] := by
            cases k <;> simp [closeStack, closeTopFrame] at hcs <;>
              simp [← hcs.1, closeTopFrame]
          have hpush : ({ parent with values := parent.values ++ [Value.list vs] } :: tail)
              = closeStack k [.list vs] := by
            cases k with
            | zero =>
                simp [closeStack, closeTopFrame] at hcs
                simp [closeStack, ← hcs.1, ← hcs.2, closeTopFrame, hvals]
            | succ k2 =>
                simp [closeStack, closeTopFrame] at hcs
                simp [closeStack, ← hcs.1, ← hcs.2, closeTopFrame, hvals]
          rw [← hpush]
          simp +decide [inlineRun, inlineRunStep, hdrop, InlineTokenFor,
            inlineStateMachine, IsErrorState, IsNonterm, IsAccept, IsGhost,
            inlineAction, closeTopFrame, StackEntry.ReduceToItem, Stack.PushKV, hkey, hcs]
      rw [hstep, ih [.list vs] fuel (pos + 1) marker suffix
        (drop_succ_of_drop text pos ']' _ hdrop),
        show pos + 1 + k + 1 = pos + (k + 1) + 1 by omega]
      rfl

theorem bracketChars_cons (m : Nat) :
    bracketChars (m + 1) = '[' :: (List.replicate m '[' ++ List.replicate (m + 1) ']') := by
  simp [bracketChars, List.replicate_succ]

theorem bracketChars_length (m : Nat) : (bracketChars (m + 1)).length = 2 * m + 2 := by
  simp [bracketChars]
  omega

/-- The inline item parser accepts arbitrarily deep bracket nesting on a
single line — no depth guard exists in it. -/
theorem inlineBrackets_ok (L m : Nat) :
    InlineParse L StateS2 (bracketString (m + 1)) = .ok (wrapIter m (.list [])) := by
  have htext : (bracketString (m + 1)).data = bracketChars (m + 1) := rfl
  set text := bracketChars (m + 1) with htextdef
  have hlen : text.length = 2 * m + 2 := bracketChars_length m
  have htext0 : text.drop 0 = '[' :: (List.replicate m '[' ++ List.replicate (m + 1) ']') := by
    simpa using bracketChars_cons m
  have hdrop1 : text.drop 1 = List.replicate m '[' ++ List.replicate (m + 1) ']' :=
    drop_succ_of_drop text 0 '[' _ htext0
  have hdropm1 : text.drop (m + 1) = List.replicate (m + 1) ']' := by
    have h1 : text = List.replicate (m + 1) '[' ++ List.replicate (m + 1) ']' := rfl
    calc text.drop (m + 1)
        = (List.replicate (m + 1) '[' ++ List.replicate (m + 1) ']').drop
            (List.replicate (m + 1) '[').length := by
          rw [← h1]
          congr 1
          simp
      _ = List.replicate (m + 1) ']' := List.drop_left _ _
  have hdropEnd : text.drop (2 * m + 2) = [] := by
    rw [← hlen]
    exact List.drop_length text
  have hroot : inlineFreshEntry StateS2 0 = closeTopFrame [] 0 := by
    simp +decide [inlineFreshEntry, closeTopFrame, StateS1, StateS2]
  have hhead0 : text.head? = some '[' := by
    have := congrArg List.head? htext0
    simpa using this
  -- step 1: the very first '[' moves from the initial state S2 to state 7
  have hstep1 : inlineRun L text (text.length + 1) 0 0 StateS2 [inlineFreshEntry StateS2 0] =
      inlineRun L text text.length 1 1 7 [closeTopFrame [] 0] := by
    rw [show StateS2 = (12 : Int) from rfl, inlineRun_succ]
    simp +decide [inlineRunStep, hhead0, InlineTokenFor, inlineStateMachine,
      IsErrorState, IsNonterm, IsAccept, IsGhost, inlineAction, inlineFreshEntry,
      StateS1, StateS2, closeTopFrame]
  have hstack : List.replicate m (closeTopFrame [] 10) ++ [closeTopFrame [] 0] =
      closeStack m [] := replicate_child_append_root m
  have hopens := inlineRun_opens L text m (m + 2) 1 1 [closeTopFrame [] 0]
    (List.replicate (m + 1) ']') (by simp) hdrop1
  have hmark : (if m = 0 then 1 else 1 + m) = m + 1 := by split <;> omega
  have hclose : inlineRun L text (m + 2) (m + 1) (m + 1) 7 (closeStack m []) =
      .ok (wrapIter m (.list []), 2 * m + 2) := by
    have hheadm1 : (text.drop (m + 1)).head? = some ']' := by
      rw [hdropm1, List.replicate_succ]
      rfl
    have hgetm1 : text[m + 1]? = some ']' := by
      have h2 := hheadm1
      simpa using h2
    cases m with
    | zero =>
        show inlineRun L text (1 + 1) (0 + 1) (0 + 1) 7 [closeTopFrame [] 0] = _
        rw [inlineRun_succ]
        simp +decide [inlineRunStep, hheadm1, hgetm1, InlineTokenFor, inlineStateMachine,
          IsErrorState, IsNonterm, IsAccept, IsGhost, inlineAction, appendStringValue,
          textSlice, closeTopFrame, StackEntry.ReduceToItem, wrapIter]
    | succ k =>
        show inlineRun L text ((k + 2) + 1) (k + 2) (k + 2) 7
          (closeTopFrame [] 10 :: closeStack k []) = _
        rw [inlineRun_succ]
        obtain ⟨parent, tail, hcs⟩ : ∃ parent tail, closeStack k [] = parent :: tail := by
          cases hk : closeStack k [] with
          | nil => exact absurd hk (closeStack_ne_nil k [])
          | cons p t => exact ⟨p, t, rfl⟩
        have hkey : parent.key = none := by
          cases k <;> simp [closeStack, closeTopFrame] at hcs <;>
            simp [← hcs.1, closeTopFrame]
        have hvals : parent.values = [] := by
          cases k <;> simp [closeStack, closeTopFrame] at hcs <;>
            simp [← hcs.1, closeTopFrame]
        have hpush : ({ parent with values := [Value.list []] } :: tail)
            = closeStack k [.list []] := by
          cases k with
          | zero =>
              simp [closeStack, closeTopFrame] at hcs
              simp [closeStack, ← hcs.1, ← hcs.2, closeTopFrame, hvals]
          | succ k2 =>
              simp [closeStack, closeTopFrame] at hcs
              simp [closeStack, ← hcs.1, ← hcs.2, closeTopFrame, hvals]
        have hrest : inlineRun L text (k + 2) ((k + 2) + 1) (k + 2) 10
            (closeStack k [.list []]) = .ok (wrapIter (k + 1) (.list []), 2 * (k + 1) + 2) := by
          have hdropk : text.drop ((k + 2) + 1) = List.replicate (k + 1) ']' ++ [] := by
            have := drop_succ_of_drop text (k + 2) ']' (List.replicate (k + 1) ']')
              (by rw [show k + 2 = k + 1 + 1 by omega] at hheadm1 ⊢
                  rw [show text.drop (k + 1 + 1) = text.drop (k + 1 + 1) from rfl]
                  have h2 := hdropm1
                  rw [show k + 1 + 1 = (k + 1) + 1 by rfl] at h2
                  rw [List.replicate_succ] at h2
                  exact h2)
            simpa using this
          have := inlineRun_closes L text k [.list []] 1 ((k + 2) + 1) (k + 2) [] hdropk
          rw [show 1 + k + 1 = k + 2 by omega] at this
          rw [this]
          have : wrapIter k (.list [.list []]) = wrapIter (k + 1) (.list []) := rfl
          rw [this]
          congr 2
          omega
        simp +decide only [inlineRunStep, hheadm1, hgetm1, InlineTokenFor, inlineStateMachine,
          IsErrorState, IsNonterm, IsAccept, IsGhost, inlineAction, appendStringValue,
          textSlice, closeTopFrame, StackEntry.ReduceToItem, Stack.PushKV, hcs, hkey]
        rw [hkey] at hpush
        simp +decide [hcs, hkey, hvals, hpush, hrest, closeTopFrame, StackEntry.ReduceToItem]
  have hrun : inlineRun L text (text.length + 1) 0 0 StateS2 [inlineFreshEntry StateS2 0] =
      .ok (wrapIter m (.list []), 2 * m + 2) := by
    rw [hstep1, show text.length = (m + 2) + m by omega, hopens, hmark,
      show 1 + m = m + 1 by omega, hstack, hclose]
  simp only [InlineParse, htext, hrun]
  simp [hdropEnd, goTrim]

theorem takeLine_no_term :
    ∀ cs : List Char, (∀ c ∈ cs, ¬(c = '\n' ∨ c = '\r')) → takeLine cs = (cs, []) := by
  intro cs
  induction cs with
  | nil => intro _; rfl
  | cons c rest ih =>
      intro h
      have hc := h c (by simp)
      simp only [takeLine, if_neg (fun hh => hc (Or.inl hh)), if_neg (fun hh => hc (Or.inr hh))]
      rw [ih (fun x hx => h x (by simp [hx]))]

theorem splitLinesAux_nil (fuel : Nat) : splitLinesAux fuel [] = [] := by
  cases fuel <;> rfl

theorem splitLines_single (cs : List Char) (hne : cs ≠ [])
    (h : ∀ c ∈ cs, ¬(c = '\n' ∨ c = '\r')) : splitLines cs = [cs] := by
  match cs, hne with
  | c :: rest, _ =>
    show splitLinesAux (c :: rest).length (c :: rest) = [c :: rest]
    rw [show (c :: rest).length = rest.length + 1 by simp, splitLinesAux,
      takeLine_no_term (c :: rest) h]
    simp [splitLinesAux_nil]

theorem bracketChars_mem (n : Nat) :
    ∀ c ∈ bracketChars n, c = '[' ∨ c = ']' := by
  intro c hc
  simp only [bracketChars, List.mem_append, List.mem_replicate] at hc
  rcases hc with h | h
  · exact Or.inl h.2
  · exact Or.inr h.2

theorem goTrim_bracketChars (n : Nat) :
    goTrim (bracketChars (n + 1)) = bracketChars (n + 1) := by
  have hrev : (bracketChars (n + 1)).reverse =
      List.replicate (n + 1) ']' ++ List.replicate (n + 1) '[' := by
    simp [bracketChars]
  have h1 : (bracketChars (n + 1)).dropWhile goIsSpace = bracketChars (n + 1) := by
    rw [bracketChars_cons]
    rw [List.dropWhile_cons_of_neg (by decide)]
  have h2 : (bracketChars (n + 1)).reverse.dropWhile goIsSpace =
      (bracketChars (n + 1)).reverse := by
    rw [hrev, List.replicate_succ, List.cons_append]
    exact List.dropWhile_cons_of_neg (by decide)
  simp only [goTrim, h1, h2, List.reverse_reverse]

theorem bracketChars_getLastD (n : Nat) :
    (bracketChars (n + 1)).getLastD ' ' = ']' := by
  have h1 : (List.replicate (n + 1) ']').getLast? = some ']' := by
    induction n with
    | zero => rfl
    | succ k ih =>
        rw [List.replicate_succ]
        rw [List.getLast?_cons]
        rw [List.replicate_succ] at ih ⊢
        simp_all [List.getLast?_cons]
  have h2 : (bracketChars (n + 1)).getLast? = some ']' := by
    rw [bracketChars, List.getLast?_append, h1]
    simp
  rw [List.getLastD_eq_getLast?, h2]
  rfl

theorem scanLine_brackets (n : Nat) :
    scanLine 1 (bracketChars (n + 1)) =
      { lineNo := 1, colNo := 1, tokenType := .InlineList, indent := 0,
        content := [bracketString (n + 1)], error := none } := by
  have hmem := bracketChars_mem (n + 1)
  have htake : (bracketChars (n + 1)).takeWhile (· = ' ') = [] := by
    rw [bracketChars_cons]
    rw [List.takeWhile_cons_of_neg (by decide)]
  simp only [scanLine, htake, List.length_nil, List.drop_zero]
  rw [bracketChars_cons]
  simp +decide only []
  rw [← bracketChars_cons]
  have hlast : (bracketChars (n + 1)).getLast?.getD ' ' = ']' := by
    rw [← List.getLastD_eq_getLast?]
    exact bracketChars_getLastD n
  simp +decide [scanInlineItemToken, goTrim_bracketChars, bracketChars_getLastD, hlast,
    isMatchingBracket, bracketString]

/-- The bracket-only one-line document of any nesting depth decodes
successfully to the corresponding nested sequence value. -/
theorem decodeBrackets_ok (n : Nat) :
    decode (bracketString (n + 1)) = .ok (some (wrapIter n (.list []))) := by
  have hdata : (bracketString (n + 1)).data = bracketChars (n + 1) := rfl
  have hne : bracketChars (n + 1) ≠ [] := by rw [bracketChars_cons]; simp
  have hnoterm : ∀ c ∈ bracketChars (n + 1), ¬(c = '\n' ∨ c = '\r') := by
    intro c hc
    rcases bracketChars_mem (n + 1) c hc with h | h <;> subst h <;> decide
  have hsplit : splitLines (bracketString (n + 1)).data = [bracketChars (n + 1)] := by
    rw [hdata]
    exact splitLines_single _ hne hnoterm
  have hign : isIgnoredLine (bracketChars (n + 1)) = false := by
    rw [bracketChars_cons]
    simp +decide [isIgnoredLine, List.dropWhile_cons, goRegexSpace]
  have hcl : contentLines (bracketString (n + 1)) = [(1, bracketChars (n + 1))] := by
    simp only [contentLines, hsplit]
    simp [hign, stripBOM]
    rw [bracketChars_cons]
    simp +decide [List.head?]
  have hfs : fileStartToken (1, bracketChars (n + 1)) =
      { lineNo := 1, colNo := 1, tokenType := .DocRoot, indent := 0,
        content := [], error := none } := by
    simp only [fileStartToken]
    rw [bracketChars_cons]
    simp +decide [List.head?]
  have htoks : scanTokens (bracketString (n + 1)) =
      ([{ lineNo := 1, colNo := 1, tokenType := .DocRoot, indent := 0,
          content := [], error := none },
        { lineNo := 1, colNo := 1, tokenType := .InlineList, indent := 0,
          content := [bracketString (n + 1)], error := none }], 2) := by
    simp only [scanTokens, hcl, hsplit, List.map_cons, List.map_nil, scanLine_brackets, hfs]
    simp
  obtain ⟨k, hk⟩ : ∃ k, decodeFuel (bracketString (n + 1)) = k + 1 :=
    ⟨decodeFuel (bracketString (n + 1)) - 1, by simp [decodeFuel]⟩
  have hany : Parser.parseAny (k + 1) 0 0
      { toks := [],
        cur := { lineNo := 1, colNo := 1, tokenType := .InlineList, indent := 0,
                 content := [bracketString (n + 1)], error := none },
        stack := [], eofLine := 2, minimal := false } =
      ({ toks := [], cur := mkEOFToken 2, stack := [], eofLine := 2, minimal := false },
        .ok (some (wrapIter n (.list [])))) := by
    simp only [Parser.parseAny, mkParserFuns]
    simp +decide only [inlineBrackets_ok, PState.next]
    simp +decide [maxNestingDepth, mkEOFToken]
  simp only [decode, decodeWith, htoks, hk, Parser.parseDocument, PState.next]
  simp +decide only [hany]
  simp +decide [mkEOFToken]

/-- C4 (amended): there is one hard ceiling, `maxNestingDepth = 5000`,
but it bounds only the structural parser — `Parser.parseAny` fails with
the fatal "exceeded max nesting depth" format error once `depth` reaches
it — while the inline item parser's bracket nesting within a single line
is not governed by it: a one-line document of nested inline lists
decodes successfully at every depth whose text fits strictly within the
scanner's 64 KiB buffer cap (in particular well past the 5000 ceiling);
past that cap the only limit hit is `bufio.ErrTooLong`, still not the
nesting ceiling. -/
theorem claim_C4_nesting_depth :
    (∀ fuel indent depth s, maxNestingDepth ≤ depth → ¬(s.cur.indent < indent) →
      Parser.parseAny (fuel + 1) indent depth s =
        (s, .error (.goError (makeFormatError "exceeded max nesting depth")))) ∧
    (∀ n, WithinScanCap (bracketString (n + 1)) →
      decode (bracketString (n + 1)) = .ok (some (wrapIter n (.list [])))) := by
  constructor
  · intro fuel indent depth s hdepth hind
    simp only [Parser.parseAny, mkParserFuns]
    simp [hind, hdepth]
  · intro n _
    exact decodeBrackets_ok n

theorem claim_C4_witness :
    (maxNestingDepth ≤ maxNestingDepth ∧
      ¬(({ toks := [], cur := undefinedToken, stack := [], eofLine := 1,
           minimal := false } : PState).cur.indent < 0) ∧
      Parser.parseAny 1 0 maxNestingDepth
        { toks := [], cur := undefinedToken, stack := [], eofLine := 1, minimal := false } =
        ({ toks := [], cur := undefinedToken, stack := [], eofLine := 1, minimal := false },
          .error (.goError (makeFormatError "exceeded max nesting depth")))) ∧
    (WithinScanCap (bracketString 1) ∧
      decode (bracketString 1) = .ok (some (Value.list []))) :=
  ⟨⟨le_refl _, by decide,
    claim_C4_nesting_depth.1 0 0 maxNestingDepth _ (le_refl _) (by decide)⟩,
   by decide, claim_C4_nesting_depth.2 0 (by decide)⟩

/-- Counterexample to the frozen C4: a single line nesting 5001 inline
lists — strictly deeper than the 5000 ceiling — decodes successfully
instead of failing with the nesting-depth error.  The line is 10002
bytes, comfortably within the scanner's 64 KiB cap, so the line model is
exact here and the behaviour is that of the Go code. -/
theorem claim_C4_counterexample :
    decode (bracketString 5001) = .ok (some (wrapIter 5000 (.list []))) ∧
    maxNestingDepth < 5001 :=
  ⟨decodeBrackets_ok 5000, by decide⟩

/-! ## The mapping key/value balance invariant (claim about `ReduceToItem`) -/

/-- The result is not the Go panic raised by `ReduceToItem` when a mapping
frame holds unequal numbers of keys and values. -/
def NoMixed {α : Type} (r : Except PErr α) : Prop :=
  r ≠ .error (.goPanic "mixed item: number of keys not equal to number of values")

theorem noMixed_goError {α : Type} (e : Err) :
    NoMixed (α := α) (.error (.goError e)) := by simp [NoMixed]

theorem noMixed_ok {α : Type} (v : α) : NoMixed (.ok v) := by simp [NoMixed]

theorem inlineTokenFor_le (ch : Char) : InlineTokenFor ch ≤ 8 := by
  unfold InlineTokenFor
  split_ifs <;> omega

theorem inlineTokenFor_comma (ch : Char) (h : InlineTokenFor ch = 3) : ch = ',' := by
  unfold InlineTokenFor at h
  split_ifs at h <;> first | assumption | omega

theorem comma_inlineTokenFor : InlineTokenFor ',' = 3 := by decide

theorem ne_comma_of_class (ch : Char) (c : Nat) (hc : InlineTokenFor ch = c)
    (h3 : c ≠ 3) : ch ≠ ',' := by
  intro h
  subst h
  rw [comma_inlineTokenFor] at hc
  exact h3 hc.symm

/-- A dict-shaped frame whose key count equals its value count. -/
def DictBal (e : StackEntry) : Prop :=
  ∃ ks, e.keys = some ks ∧ ks.length = e.values.length

/-- What the top inline frame looks like in each automaton state. -/
def TopOK (st : Int) (e : StackEntry) : Prop :=
  if st = 1 then e.keys = some [] ∧ e.values = []
  else if st = 2 then DictBal e
  else if st = 3 then DictBal e ∧ ∃ k, e.key = some k
  else if st = 4 then DictBal e ∧ ∃ k, e.key = some k
  else if st = 5 then DictBal e
  else if st = 6 then DictBal e
  else if st = 7 then e.keys = none
  else if st = 8 then e.keys = none
  else if st = 9 then e.keys = none
  else if st = 10 then e.keys = none
  else if st = 11 then e.keys = some [] ∧ e.values = []
  else if st = 12 then e.keys = none
  else False

/-- A suspended frame's resume state (stored in its child) matches the
suspended frame's shape: resume 5 is a balanced dict with a pending key,
resume 10 is a list. -/
def LinkOK (e : StackEntry) (rest : Stack) : Prop :=
  match rest with
  | [] => True
  | p :: _ =>
      (e.nontermState = 5 ∧ DictBal p ∧ ∃ k, p.key = some k) ∨
      (e.nontermState = 10 ∧ p.keys = none)

def StackOK : Stack → Prop
  | [] => True
  | e :: rest => LinkOK e rest ∧ StackOK rest

/-- The inline automaton's loop invariant. -/
def InlineInv (state : Int) (stack : Stack) : Prop :=
  match stack with
  | [] => True
  | tos :: rest => TopOK state tos ∧ LinkOK tos rest ∧ StackOK rest

/-- The continuation of one loop step keeps the no-mixed-panic property
on every invariant-satisfying configuration. -/
def ContOK (cont : Nat → Nat → Int → Stack → Except PErr (Value × Nat)) : Prop :=
  ∀ p m st stk, InlineInv st stk → NoMixed (cont p m st stk)

theorem linkOK_of_nonterm_eq (p q : StackEntry) (t : Stack) (h : LinkOK p t)
    (he : q.nontermState = p.nontermState) : LinkOK q t := by
  cases t with
  | nil => exact trivial
  | cons x xs =>
      simp only [LinkOK] at h ⊢
      rw [he]
      exact h

theorem inlineStep_errClass (cont : Nat → Nat → Int → Stack → Except PErr (Value × Nat))
    (lineNo : Nat) (text : List Char) (pos marker : Nat) (state : Int)
    (tos : StackEntry) (rest : Stack) (ch : Char)
    (hhead : (text.drop pos).head? = some ch)
    (herr : IsErrorState (inlineStateMachine state (InlineTokenFor ch)) = true) :
    NoMixed (inlineRunStep cont lineNo text pos marker state tos rest) := by
  simp only [inlineRunStep, hhead, herr, if_true]
  cases tos.error <;> simp [NoMixed]

theorem inlineStep_actErr (cont : Nat → Nat → Int → Stack → Except PErr (Value × Nat))
    (lineNo : Nat) (text : List Char) (pos marker : Nat) (state dst : Int)
    (tos : StackEntry) (rest : Stack) (ch : Char) (pe : PErr)
    (hhead : (text.drop pos).head? = some ch)
    (hdst : inlineStateMachine state (InlineTokenFor ch) = dst)
    (herr : IsErrorState dst = false)
    (hnt : IsNonterm dst = false)
    (hact : inlineAction dst state ch text pos marker (tos :: rest) = .error pe)
    (hpe : NoMixed (α := Value × Nat) (.error pe)) :
    NoMixed (inlineRunStep cont lineNo text pos marker state tos rest) := by
  simp only [inlineRunStep, hhead, hdst, herr, hnt, Bool.false_eq_true, if_false, hact]
  exact hpe

theorem inlineStep_plain (cont : Nat → Nat → Int → Stack → Except PErr (Value × Nat))
    (lineNo : Nat) (text : List Char) (pos marker marker2 : Nat) (state dst : Int)
    (tos : StackEntry) (rest stack3 : Stack) (ch : Char)
    (hhead : (text.drop pos).head? = some ch)
    (hdst : inlineStateMachine state (InlineTokenFor ch) = dst)
    (herr : IsErrorState dst = false)
    (hnt : IsNonterm dst = false)
    (hacc : IsAccept dst = false)
    (hact : inlineAction dst state ch text pos marker (tos :: rest) = .ok (marker2, stack3))
    (hcont : ContOK cont)
    (hinv : InlineInv dst stack3) :
    NoMixed (inlineRunStep cont lineNo text pos marker state tos rest) := by
  simp only [inlineRunStep, hhead, hdst, herr, hnt, hacc, Bool.false_eq_true, if_false, hact]
  exact hcont _ _ _ _ hinv

theorem inlineStep_accept (cont : Nat → Nat → Int → Stack → Except PErr (Value × Nat))
    (lineNo : Nat) (text : List Char) (pos marker marker2 : Nat) (state dst : Int)
    (tos e : StackEntry) (rest rest' : Stack) (ch : Char)
    (hhead : (text.drop pos).head? = some ch)
    (hdst : inlineStateMachine state (InlineTokenFor ch) = dst)
    (herr : IsErrorState dst = false)
    (hnt : IsNonterm dst = false)
    (hacc : IsAccept dst = true)
    (hact : inlineAction dst state ch text pos marker (tos :: rest) = .ok (marker2, e :: rest'))
    (hred : ∃ v, e.ReduceToItem = some v)
    (hlink : LinkOK e rest')
    (hstk : StackOK rest')
    (hcont : ContOK cont) :
    NoMixed (inlineRunStep cont lineNo text pos marker state tos rest) := by
  obtain ⟨v, hv⟩ := hred
  simp only [inlineRunStep, hhead, hdst, herr, hnt, hacc, Bool.false_eq_true, if_false,
    if_true, hact, hv]
  cases rest' with
  | nil => simp [NoMixed]
  | cons p t =>
      obtain ⟨hlp, hst⟩ : LinkOK p t ∧ StackOK t := hstk
      rcases hlink with ⟨h5, ⟨pks, hpks, hpbal⟩, pk, hpk⟩ | ⟨h10, hpkeys⟩
      · simp only [Stack.PushKV, hpk, hpks]
        by_cases hdup : pk ∈ pks
        · simp [hdup, NoMixed]
        · simp only [hdup, if_false]
          apply hcont
          refine ⟨?_, ?_, hst⟩
          · rw [h5]
            exact ⟨pks ++ [pk], by simp, by simp [hpbal]⟩
          · exact linkOK_of_nonterm_eq p _ t hlp rfl
      · cases hpbk : p.key with
        | some k2 => simp [Stack.PushKV, hpbk, hpkeys, NoMixed]
        | none =>
            simp only [Stack.PushKV, hpbk]
            apply hcont
            refine ⟨?_, ?_, hst⟩
            · rw [h10]
              simpa [TopOK] using hpkeys
            · exact linkOK_of_nonterm_eq p _ t hlp rfl

theorem inlineStep_push (cont : Nat → Nat → Int → Stack → Except PErr (Value × Nat))
    (lineNo : Nat) (text : List Char) (pos marker marker2 : Nat) (state st1 st2 : Int)
    (tos : StackEntry) (rest stack3 : Stack) (ch : Char)
    (hhead : (text.drop pos).head? = some ch)
    (hdst : inlineStateMachine state (InlineTokenFor ch) = st1)
    (herr : IsErrorState st1 = false)
    (hnt : IsNonterm st1 = true)
    (hst2 : inlineStateMachine st1 (InlineTokenFor ch) = st2)
    (herr2 : IsErrorState st2 = false)
    (hacc2 : IsAccept st2 = false)
    (hact : inlineAction st2 state ch text pos marker
      (inlineFreshEntry st1 (inlineStateMachine state (stateIndex st1)) :: tos :: rest) =
      .ok (marker2, stack3))
    (hcont : ContOK cont)
    (hinv : InlineInv st2 stack3) :
    NoMixed (inlineRunStep cont lineNo text pos marker state tos rest) := by
  simp only [inlineRunStep, hhead, hdst, herr, hnt, hst2, herr2, hacc2, Bool.false_eq_true,
    if_false, if_true, hact]
  exact hcont _ _ _ _ hinv

theorem inlineInv_s11 (cont : Nat → Nat → Int → Stack → Except PErr (Value × Nat))
    (lineNo : Nat) (text : List Char) (pos marker : Nat) (tos : StackEntry) (rest : Stack)
    (htop : TopOK 11 tos) (hlink : LinkOK tos rest) (hstk : StackOK rest)
    (hcont : ContOK cont) :
    NoMixed (inlineRunStep cont lineNo text pos marker 11 tos rest) := by
  cases hhead : (text.drop pos).head? with
  | none => simp [inlineRunStep, hhead, NoMixed]
  | some ch =>
      have hle := inlineTokenFor_le ch
      have h9 : InlineTokenFor ch = 0 ∨ InlineTokenFor ch = 1 ∨ InlineTokenFor ch = 2 ∨
          InlineTokenFor ch = 3 ∨ InlineTokenFor ch = 4 ∨ InlineTokenFor ch = 5 ∨
          InlineTokenFor ch = 6 ∨ InlineTokenFor ch = 7 ∨ InlineTokenFor ch = 8 := by omega
      rcases h9 with hc | hc | hc | hc | hc | hc | hc | hc | hc
      · exact inlineStep_errClass cont lineNo text pos marker 11 tos rest ch hhead
          (by rw [hc]; decide)
      · exact inlineStep_errClass cont lineNo text pos marker 11 tos rest ch hhead
          (by rw [hc]; decide)
      · exact inlineStep_errClass cont lineNo text pos marker 11 tos rest ch hhead
          (by rw [hc]; decide)
      · exact inlineStep_errClass cont lineNo text pos marker 11 tos rest ch hhead
          (by rw [hc]; decide)
      · exact inlineStep_errClass cont lineNo text pos marker 11 tos rest ch hhead
          (by rw [hc]; decide)
      · exact inlineStep_errClass cont lineNo text pos marker 11 tos rest ch hhead
          (by rw [hc]; decide)
      · exact inlineStep_errClass cont lineNo text pos marker 11 tos rest ch hhead
          (by rw [hc]; decide)
      · exact inlineStep_plain cont lineNo text pos marker _ 11 1 tos rest _ ch hhead
          (by rw [hc]; decide) (by decide) (by decide) (by decide) rfl hcont
          ⟨htop, hlink, hstk⟩
      · exact inlineStep_errClass cont lineNo text pos marker 11 tos rest ch hhead
          (by rw [hc]; decide)

theorem inlineInv_s12 (cont : Nat → Nat → Int → Stack → Except PErr (Value × Nat))
    (lineNo : Nat) (text : List Char) (pos marker : Nat) (tos : StackEntry) (rest : Stack)
    (htop : TopOK 12 tos) (hlink : LinkOK tos rest) (hstk : StackOK rest)
    (hcont : ContOK cont) :
    NoMixed (inlineRunStep cont lineNo text pos marker 12 tos rest) := by
  cases hhead : (text.drop pos).head? with
  | none => simp [inlineRunStep, hhead, NoMixed]
  | some ch =>
      have hle := inlineTokenFor_le ch
      have h9 : InlineTokenFor ch = 0 ∨ InlineTokenFor ch = 1 ∨ InlineTokenFor ch = 2 ∨
          InlineTokenFor ch = 3 ∨ InlineTokenFor ch = 4 ∨ InlineTokenFor ch = 5 ∨
          InlineTokenFor ch = 6 ∨ InlineTokenFor ch = 7 ∨ InlineTokenFor ch = 8 := by omega
      rcases h9 with hc | hc | hc | hc | hc | hc | hc | hc | hc
      · exact inlineStep_errClass cont lineNo text pos marker 12 tos rest ch hhead
          (by rw [hc]; decide)
      · exact inlineStep_errClass cont lineNo text pos marker 12 tos rest ch hhead
          (by rw [hc]; decide)
      · exact inlineStep_errClass cont lineNo text pos marker 12 tos rest ch hhead
          (by rw [hc]; decide)
      · exact inlineStep_errClass cont lineNo text pos marker 12 tos rest ch hhead
          (by rw [hc]; decide)
      · exact inlineStep_errClass cont lineNo text pos marker 12 tos rest ch hhead
          (by rw [hc]; decide)
      · exact inlineStep_plain cont lineNo text pos marker (pos + 1) 12 7 tos rest
          (tos :: rest) ch hhead
          (by rw [hc]; decide) (by decide) (by decide) (by decide)
          (by simp [inlineAction, ne_comma_of_class ch 5 hc (by decide)]) hcont
          ⟨htop, hlink, hstk⟩
      · exact inlineStep_errClass cont lineNo text pos marker 12 tos rest ch hhead
          (by rw [hc]; decide)
      · exact inlineStep_errClass cont lineNo text pos marker 12 tos rest ch hhead
          (by rw [hc]; decide)
      · exact inlineStep_errClass cont lineNo text pos marker 12 tos rest ch hhead
          (by rw [hc]; decide)

theorem reduce_some_of_dictBal (e : StackEntry) (h : DictBal e) :
    ∃ v, e.ReduceToItem = some v := by
  obtain ⟨ks, hk, hb⟩ := h
  refine ⟨.dict (ks.zip e.values), ?_⟩
  simp only [StackEntry.ReduceToItem, hk]
  rw [if_neg]
  omega

theorem reduce_some_of_noKeys (e : StackEntry) (h : e.keys = none) :
    ∃ v, e.ReduceToItem = some v :=
  ⟨.list e.values, by simp [StackEntry.ReduceToItem, h]⟩

theorem reduce_some_of_emptyKeys (e : StackEntry) (h : e.keys = some []) :
    ∃ v, e.ReduceToItem = some v := by
  refine ⟨.dict ([].zip e.values), ?_⟩
  simp only [StackEntry.ReduceToItem, h]
  rw [if_neg]
  simp

theorem inlineInv_s1 (cont : Nat → Nat → Int → Stack → Except PErr (Value × Nat))
    (lineNo : Nat) (text : List Char) (pos marker : Nat) (tos : StackEntry) (rest : Stack)
    (htop : TopOK 1 tos) (hlink : LinkOK tos rest) (hstk : StackOK rest)
    (hcont : ContOK cont) :
    NoMixed (inlineRunStep cont lineNo text pos marker 1 tos rest) := by
  obtain ⟨hk, hv⟩ := htop
  cases hhead : (text.drop pos).head? with
  | none => simp [inlineRunStep, hhead, NoMixed]
  | some ch =>
      have hle := inlineTokenFor_le ch
      have h9 : InlineTokenFor ch = 0 ∨ InlineTokenFor ch = 1 ∨ InlineTokenFor ch = 2 ∨
          InlineTokenFor ch = 3 ∨ InlineTokenFor ch = 4 ∨ InlineTokenFor ch = 5 ∨
          InlineTokenFor ch = 6 ∨ InlineTokenFor ch = 7 ∨ InlineTokenFor ch = 8 := by omega
      rcases h9 with hc | hc | hc | hc | hc | hc | hc | hc | hc
      · exact inlineStep_plain cont lineNo text pos marker marker 1 2 tos rest (tos :: rest)
          ch hhead (by rw [hc]; decide) (by decide) (by decide) (by decide) rfl hcont
          ⟨⟨[], hk, by simp [hv]⟩, hlink, hstk⟩
      · exact inlineStep_plain cont lineNo text pos marker marker 1 2 tos rest (tos :: rest)
          ch hhead (by rw [hc]; decide) (by decide) (by decide) (by decide) rfl hcont
          ⟨⟨[], hk, by simp [hv]⟩, hlink, hstk⟩
      · exact inlineStep_errClass cont lineNo text pos marker 1 tos rest ch hhead
          (by rw [hc]; decide)
      · exact inlineStep_errClass cont lineNo text pos marker 1 tos rest ch hhead
          (by rw [hc]; decide)
      · exact inlineStep_plain cont lineNo text pos marker (pos + 1) 1 3 tos rest
          ({ tos with key := some (String.mk (goTrim (textSlice text marker pos))) } :: rest)
          ch hhead (by rw [hc]; decide) (by decide) (by decide) (by decide) rfl hcont
          ⟨⟨⟨[], hk, by simp [hv]⟩, _, rfl⟩, linkOK_of_nonterm_eq tos _ rest hlink rfl, hstk⟩
      · exact inlineStep_errClass cont lineNo text pos marker 1 tos rest ch hhead
          (by rw [hc]; decide)
      · exact inlineStep_errClass cont lineNo text pos marker 1 tos rest ch hhead
          (by rw [hc]; decide)
      · exact inlineStep_errClass cont lineNo text pos marker 1 tos rest ch hhead
          (by rw [hc]; decide)
      · by_cases hm : marker > 0
        · cases hkey : tos.key with
          | none =>
              by_cases hvl : (textSlice text marker pos).length > 0
              · refine inlineStep_accept cont lineNo text pos marker marker 1 13 tos
                  { tos with values :=
                      tos.values ++ [.str (String.mk (goTrim (textSlice text marker pos)))] }
                  rest rest ch hhead (by rw [hc]; decide) (by decide) (by decide) (by decide)
                  ?_ (reduce_some_of_emptyKeys _ hk)
                  (linkOK_of_nonterm_eq tos _ rest hlink rfl) hstk hcont
                simp +decide [inlineAction, IsGhost, hm, appendStringValue, hkey, hvl,
                  Stack.PushKV]
              · refine inlineStep_accept cont lineNo text pos marker marker 1 13 tos tos
                  rest rest ch hhead (by rw [hc]; decide) (by decide) (by decide) (by decide)
                  ?_ (reduce_some_of_emptyKeys _ hk) hlink hstk hcont
                simp +decide [inlineAction, IsGhost, hm, appendStringValue, hkey, hvl, hv]
          | some k0 =>
              refine inlineStep_accept cont lineNo text pos marker marker 1 13 tos
                { tos with keys := some [k0], values :=
                    tos.values ++ [.str (String.mk (goTrim (textSlice text marker pos)))] }
                rest rest ch hhead (by rw [hc]; decide) (by decide) (by decide) (by decide)
                ?_ (reduce_some_of_dictBal _ ⟨[k0], rfl, by simp [hv]⟩)
                (linkOK_of_nonterm_eq tos _ rest hlink rfl) hstk hcont
              simp +decide [inlineAction, IsGhost, hm, appendStringValue, hkey,
                Stack.PushKV, hk]
        · refine inlineStep_accept cont lineNo text pos marker marker 1 13 tos tos
            rest rest ch hhead (by rw [hc]; decide) (by decide) (by decide) (by decide)
            ?_ (reduce_some_of_emptyKeys _ hk) hlink hstk hcont
          simp [inlineAction, hm]

theorem inlineInv_s2 (cont : Nat → Nat → Int → Stack → Except PErr (Value × Nat))
    (lineNo : Nat) (text : List Char) (pos marker : Nat) (tos : StackEntry) (rest : Stack)
    (htop : TopOK 2 tos) (hlink : LinkOK tos rest) (hstk : StackOK rest)
    (hcont : ContOK cont) :
    NoMixed (inlineRunStep cont lineNo text pos marker 2 tos rest) := by
  obtain ⟨ks, hk, hb⟩ := htop
  cases hhead : (text.drop pos).head? with
  | none => simp [inlineRunStep, hhead, NoMixed]
  | some ch =>
      have hle := inlineTokenFor_le ch
      have h9 : InlineTokenFor ch = 0 ∨ InlineTokenFor ch = 1 ∨ InlineTokenFor ch = 2 ∨
          InlineTokenFor ch = 3 ∨ InlineTokenFor ch = 4 ∨ InlineTokenFor ch = 5 ∨
          InlineTokenFor ch = 6 ∨ InlineTokenFor ch = 7 ∨ InlineTokenFor ch = 8 := by omega
      rcases h9 with hc | hc | hc | hc | hc | hc | hc | hc | hc
      · exact inlineStep_plain cont lineNo text pos marker marker 2 2 tos rest (tos :: rest)
          ch hhead (by rw [hc]; decide) (by decide) (by decide) (by decide) rfl hcont
          ⟨⟨ks, hk, hb⟩, hlink, hstk⟩
      · exact inlineStep_plain cont lineNo text pos marker marker 2 2 tos rest (tos :: rest)
          ch hhead (by rw [hc]; decide) (by decide) (by decide) (by decide) rfl hcont
          ⟨⟨ks, hk, hb⟩, hlink, hstk⟩
      · exact inlineStep_errClass cont lineNo text pos marker 2 tos rest ch hhead
          (by rw [hc]; decide)
      · exact inlineStep_errClass cont lineNo text pos marker 2 tos rest ch hhead
          (by rw [hc]; decide)
      · exact inlineStep_plain cont lineNo text pos marker (pos + 1) 2 3 tos rest
          ({ tos with key := some (String.mk (goTrim (textSlice text marker pos))) } :: rest)
          ch hhead (by rw [hc]; decide) (by decide) (by decide) (by decide) rfl hcont
          ⟨⟨⟨ks, hk, hb⟩, _, rfl⟩, linkOK_of_nonterm_eq tos _ rest hlink rfl, hstk⟩
      · exact inlineStep_errClass cont lineNo text pos marker 2 tos rest ch hhead
          (by rw [hc]; decide)
      · exact inlineStep_errClass cont lineNo text pos marker 2 tos rest ch hhead
          (by rw [hc]; decide)
      · exact inlineStep_errClass cont lineNo text pos marker 2 tos rest ch hhead
          (by rw [hc]; decide)
      · exact inlineStep_errClass cont lineNo text pos marker 2 tos rest ch hhead
          (by rw [hc]; decide)

theorem inlineInv_s6 (cont : Nat → Nat → Int → Stack → Except PErr (Value × Nat))
    (lineNo : Nat) (text : List Char) (pos marker : Nat) (tos : StackEntry) (rest : Stack)
    (htop : TopOK 6 tos) (hlink : LinkOK tos rest) (hstk : StackOK rest)
    (hcont : ContOK cont) :
    NoMixed (inlineRunStep cont lineNo text pos marker 6 tos rest) := by
  obtain ⟨ks, hk, hb⟩ := htop
  cases hhead : (text.drop pos).head? with
  | none => simp [inlineRunStep, hhead, NoMixed]
  | some ch =>
      have hle := inlineTokenFor_le ch
      have h9 : InlineTokenFor ch = 0 ∨ InlineTokenFor ch = 1 ∨ InlineTokenFor ch = 2 ∨
          InlineTokenFor ch = 3 ∨ InlineTokenFor ch = 4 ∨ InlineTokenFor ch = 5 ∨
          InlineTokenFor ch = 6 ∨ InlineTokenFor ch = 7 ∨ InlineTokenFor ch = 8 := by omega
      rcases h9 with hc | hc | hc | hc | hc | hc | hc | hc | hc
      · exact inlineStep_plain cont lineNo text pos marker marker 6 2 tos rest (tos :: rest)
          ch hhead (by rw [hc]; decide) (by decide) (by decide) (by decide) rfl hcont
          ⟨⟨ks, hk, hb⟩, hlink, hstk⟩
      · exact inlineStep_plain cont lineNo text pos marker marker 6 6 tos rest (tos :: rest)
          ch hhead (by rw [hc]; decide) (by decide) (by decide) (by decide) rfl hcont
          ⟨⟨ks, hk, hb⟩, hlink, hstk⟩
      · exact inlineStep_errClass cont lineNo text pos marker 6 tos rest ch hhead
          (by rw [hc]; decide)
      · exact inlineStep_errClass cont lineNo text pos marker 6 tos rest ch hhead
          (by rw [hc]; decide)
      · exact inlineStep_plain cont lineNo text pos marker (pos + 1) 6 3 tos rest
          ({ tos with key := some (String.mk (goTrim (textSlice text marker pos))) } :: rest)
          ch hhead (by rw [hc]; decide) (by decide) (by decide) (by decide) rfl hcont
          ⟨⟨⟨ks, hk, hb⟩, _, rfl⟩, linkOK_of_nonterm_eq tos _ rest hlink rfl, hstk⟩
      · exact inlineStep_errClass cont lineNo text pos marker 6 tos rest ch hhead
          (by rw [hc]; decide)
      · exact inlineStep_errClass cont lineNo text pos marker 6 tos rest ch hhead
          (by rw [hc]; decide)
      · exact inlineStep_errClass cont lineNo text pos marker 6 tos rest ch hhead
          (by rw [hc]; decide)
      · exact inlineStep_errClass cont lineNo text pos marker 6 tos rest ch hhead
          (by rw [hc]; decide)

theorem inlineInv_s5 (cont : Nat → Nat → Int → Stack → Except PErr (Value × Nat))
    (lineNo : Nat) (text : List Char) (pos marker : Nat) (tos : StackEntry) (rest : Stack)
    (htop : TopOK 5 tos) (hlink : LinkOK tos rest) (hstk : StackOK rest)
    (hcont : ContOK cont) :
    NoMixed (inlineRunStep cont lineNo text pos marker 5 tos rest) := by
  obtain ⟨ks, hk, hb⟩ := htop
  cases hhead : (text.drop pos).head? with
  | none => simp [inlineRunStep, hhead, NoMixed]
  | some ch =>
      have hle := inlineTokenFor_le ch
      have h9 : InlineTokenFor ch = 0 ∨ InlineTokenFor ch = 1 ∨ InlineTokenFor ch = 2 ∨
          InlineTokenFor ch = 3 ∨ InlineTokenFor ch = 4 ∨ InlineTokenFor ch = 5 ∨
          InlineTokenFor ch = 6 ∨ InlineTokenFor ch = 7 ∨ InlineTokenFor ch = 8 := by omega
      rcases h9 with hc | hc | hc | hc | hc | hc | hc | hc | hc
      · exact inlineStep_errClass cont lineNo text pos marker 5 tos rest ch hhead
          (by rw [hc]; decide)
      · exact inlineStep_plain cont lineNo text pos marker marker 5 5 tos rest (tos :: rest)
          ch hhead (by rw [hc]; decide) (by decide) (by decide) (by decide) rfl hcont
          ⟨⟨ks, hk, hb⟩, hlink, hstk⟩
      · exact inlineStep_errClass cont lineNo text pos marker 5 tos rest ch hhead
          (by rw [hc]; decide)
      · refine inlineStep_plain cont lineNo text pos marker (pos + 1) 5 6 tos rest
          ({ tos with key := none } :: rest) ch hhead
          (by rw [hc]; decide) (by decide) (by decide) (by decide) ?_ hcont
          ⟨⟨ks, hk, hb⟩, linkOK_of_nonterm_eq tos _ rest hlink rfl, hstk⟩
        simp +decide [inlineAction, IsGhost]
      · exact inlineStep_errClass cont lineNo text pos marker 5 tos rest ch hhead
          (by rw [hc]; decide)
      · exact inlineStep_errClass cont lineNo text pos marker 5 tos rest ch hhead
          (by rw [hc]; decide)
      · exact inlineStep_errClass cont lineNo text pos marker 5 tos rest ch hhead
          (by rw [hc]; decide)
      · exact inlineStep_errClass cont lineNo text pos marker 5 tos rest ch hhead
          (by rw [hc]; decide)
      · refine inlineStep_accept cont lineNo text pos marker marker 5 13 tos tos
          rest rest ch hhead (by rw [hc]; decide) (by decide) (by decide) (by decide)
          ?_ (reduce_some_of_dictBal _ ⟨ks, hk, hb⟩) hlink hstk hcont
        simp +decide [inlineAction, IsGhost]

theorem inlineInv_s3 (cont : Nat → Nat → Int → Stack → Except PErr (Value × Nat))
    (lineNo : Nat) (text : List Char) (pos marker : Nat) (tos : StackEntry) (rest : Stack)
    (htop : TopOK 3 tos) (hlink : LinkOK tos rest) (hstk : StackOK rest)
    (hcont : ContOK cont) :
    NoMixed (inlineRunStep cont lineNo text pos marker 3 tos rest) := by
  obtain ⟨⟨ks, hk, hb⟩, k0, hkey⟩ := htop
  cases hhead : (text.drop pos).head? with
  | none => simp [inlineRunStep, hhead, NoMixed]
  | some ch =>
      have hle := inlineTokenFor_le ch
      have h9 : InlineTokenFor ch = 0 ∨ InlineTokenFor ch = 1 ∨ InlineTokenFor ch = 2 ∨
          InlineTokenFor ch = 3 ∨ InlineTokenFor ch = 4 ∨ InlineTokenFor ch = 5 ∨
          InlineTokenFor ch = 6 ∨ InlineTokenFor ch = 7 ∨ InlineTokenFor ch = 8 := by omega
      rcases h9 with hc | hc | hc | hc | hc | hc | hc | hc | hc
      · exact inlineStep_plain cont lineNo text pos marker marker 3 4 tos rest (tos :: rest)
          ch hhead (by rw [hc]; decide) (by decide) (by decide) (by decide) rfl hcont
          ⟨⟨⟨ks, hk, hb⟩, k0, hkey⟩, hlink, hstk⟩
      · exact inlineStep_plain cont lineNo text pos marker marker 3 3 tos rest (tos :: rest)
          ch hhead (by rw [hc]; decide) (by decide) (by decide) (by decide) rfl hcont
          ⟨⟨⟨ks, hk, hb⟩, k0, hkey⟩, hlink, hstk⟩
      · exact inlineStep_errClass cont lineNo text pos marker 3 tos rest ch hhead
          (by rw [hc]; decide)
      · by_cases hm : marker > 0
        · by_cases hdup : k0 ∈ ks
          · exact inlineStep_actErr cont lineNo text pos marker 3 6 tos rest ch
              (.goError (makeFormatError ("duplicate key: " ++ k0))) hhead
              (by rw [hc]; decide) (by decide) (by decide)
              (by simp +decide [inlineAction, IsGhost, hm, appendStringValue, hkey,
                Stack.PushKV, hk, hdup])
              (noMixed_goError _)
          · refine inlineStep_plain cont lineNo text pos marker (pos + 1) 3 6 tos rest
              ({ tos with
                  keys := some (ks ++ [k0]),
                  values := tos.values ++ [.str (String.mk (goTrim (textSlice text marker pos)))],
                  key := none } :: rest) ch hhead
              (by rw [hc]; decide) (by decide) (by decide) (by decide) ?_ hcont
              ⟨⟨ks ++ [k0], rfl, by simp [hb]⟩,
                linkOK_of_nonterm_eq tos _ rest hlink rfl, hstk⟩
            simp +decide [inlineAction, IsGhost, hm, appendStringValue, hkey,
              Stack.PushKV, hk, hdup]
        · refine inlineStep_plain cont lineNo text pos marker (pos + 1) 3 6 tos rest
            ({ tos with key := none } :: rest) ch hhead
            (by rw [hc]; decide) (by decide) (by decide) (by decide) ?_ hcont
            ⟨⟨ks, hk, hb⟩, linkOK_of_nonterm_eq tos _ rest hlink rfl, hstk⟩
          simp [inlineAction, hm]
      · exact inlineStep_errClass cont lineNo text pos marker 3 tos rest ch hhead
          (by rw [hc]; decide)
      · refine inlineStep_push cont lineNo text pos marker (pos + 1) 3 12 7 tos rest
          (inlineFreshEntry 12 (inlineStateMachine 3 (stateIndex 12)) :: tos :: rest) ch
          hhead (by rw [hc]; decide) (by decide) (by decide) (by rw [hc]; decide)
          (by decide) (by decide) ?_ hcont
          ⟨rfl, Or.inl ⟨by decide, ⟨ks, hk, hb⟩, k0, hkey⟩, hlink, hstk⟩
        simp [inlineAction, ne_comma_of_class ch 5 hc (by decide)]
      · exact inlineStep_errClass cont lineNo text pos marker 3 tos rest ch hhead
          (by rw [hc]; decide)
      · exact inlineStep_push cont lineNo text pos marker (pos + 1) 3 11 1 tos rest
          (inlineFreshEntry 11 (inlineStateMachine 3 (stateIndex 11)) :: tos :: rest) ch
          hhead (by rw [hc]; decide) (by decide) (by decide) (by rw [hc]; decide)
          (by decide) (by decide) rfl hcont
          ⟨⟨rfl, rfl⟩, Or.inl ⟨by decide, ⟨ks, hk, hb⟩, k0, hkey⟩, hlink, hstk⟩
      · by_cases hm : marker > 0
        · by_cases hdup : k0 ∈ ks
          · exact inlineStep_actErr cont lineNo text pos marker 3 13 tos rest ch
              (.goError (makeFormatError ("duplicate key: " ++ k0))) hhead
              (by rw [hc]; decide) (by decide) (by decide)
              (by simp +decide [inlineAction, IsGhost, hm, appendStringValue, hkey,
                Stack.PushKV, hk, hdup])
              (noMixed_goError _)
          · refine inlineStep_accept cont lineNo text pos marker marker 3 13 tos
              { tos with
                  keys := some (ks ++ [k0]),
                  values := tos.values ++ [.str (String.mk (goTrim (textSlice text marker pos)))] }
              rest rest ch hhead (by rw [hc]; decide) (by decide) (by decide) (by decide)
              ?_ (reduce_some_of_dictBal _ ⟨ks ++ [k0], rfl, by simp [hb]⟩)
              (linkOK_of_nonterm_eq tos _ rest hlink rfl) hstk hcont
            simp +decide [inlineAction, IsGhost, hm, appendStringValue, hkey,
              Stack.PushKV, hk, hdup]
        · refine inlineStep_accept cont lineNo text pos marker marker 3 13 tos tos
            rest rest ch hhead (by rw [hc]; decide) (by decide) (by decide) (by decide)
            ?_ (reduce_some_of_dictBal _ ⟨ks, hk, hb⟩) hlink hstk hcont
          simp [inlineAction, hm]

theorem inlineInv_s4 (cont : Nat → Nat → Int → Stack → Except PErr (Value × Nat))
    (lineNo : Nat) (text : List Char) (pos marker : Nat) (tos : StackEntry) (rest : Stack)
    (htop : TopOK 4 tos) (hlink : LinkOK tos rest) (hstk : StackOK rest)
    (hcont : ContOK cont) :
    NoMixed (inlineRunStep cont lineNo text pos marker 4 tos rest) := by
  obtain ⟨⟨ks, hk, hb⟩, k0, hkey⟩ := htop
  cases hhead : (text.drop pos).head? with
  | none => simp [inlineRunStep, hhead, NoMixed]
  | some ch =>
      have hle := inlineTokenFor_le ch
      have h9 : InlineTokenFor ch = 0 ∨ InlineTokenFor ch = 1 ∨ InlineTokenFor ch = 2 ∨
          InlineTokenFor ch = 3 ∨ InlineTokenFor ch = 4 ∨ InlineTokenFor ch = 5 ∨
          InlineTokenFor ch = 6 ∨ InlineTokenFor ch = 7 ∨ InlineTokenFor ch = 8 := by omega
      rcases h9 with hc | hc | hc | hc | hc | hc | hc | hc | hc
      · exact inlineStep_plain cont lineNo text pos marker marker 4 4 tos rest (tos :: rest)
          ch hhead (by rw [hc]; decide) (by decide) (by decide) (by decide) rfl hcont
          ⟨⟨⟨ks, hk, hb⟩, k0, hkey⟩, hlink, hstk⟩
      · exact inlineStep_plain cont lineNo text pos marker marker 4 4 tos rest (tos :: rest)
          ch hhead (by rw [hc]; decide) (by decide) (by decide) (by decide) rfl hcont
          ⟨⟨⟨ks, hk, hb⟩, k0, hkey⟩, hlink, hstk⟩
      · exact inlineStep_errClass cont lineNo text pos marker 4 tos rest ch hhead
          (by rw [hc]; decide)
      · by_cases hm : marker > 0
        · by_cases hdup : k0 ∈ ks
          · exact inlineStep_actErr cont lineNo text pos marker 4 6 tos rest ch
              (.goError (makeFormatError ("duplicate key: " ++ k0))) hhead
              (by rw [hc]; decide) (by decide) (by decide)
              (by simp +decide [inlineAction, IsGhost, hm, appendStringValue, hkey,
                Stack.PushKV, hk, hdup])
              (noMixed_goError _)
          · refine inlineStep_plain cont lineNo text pos marker (pos + 1) 4 6 tos rest
              ({ tos with
                  keys := some (ks ++ [k0]),
                  values := tos.values ++ [.str (String.mk (goTrim (textSlice text marker pos)))],
                  key := none } :: rest) ch hhead
              (by rw [hc]; decide) (by decide) (by decide) (by decide) ?_ hcont
              ⟨⟨ks ++ [k0], rfl, by simp [hb]⟩,
                linkOK_of_nonterm_eq tos _ rest hlink rfl, hstk⟩
            simp +decide [inlineAction, IsGhost, hm, appendStringValue, hkey,
              Stack.PushKV, hk, hdup]
        · refine inlineStep_plain cont lineNo text pos marker (pos + 1) 4 6 tos rest
            ({ tos with key := none } :: rest) ch hhead
            (by rw [hc]; decide) (by decide) (by decide) (by decide) ?_ hcont
            ⟨⟨ks, hk, hb⟩, linkOK_of_nonterm_eq tos _ rest hlink rfl, hstk⟩
          simp [inlineAction, hm]
      · exact inlineStep_errClass cont lineNo text pos marker 4 tos rest ch hhead
          (by rw [hc]; decide)
      · exact inlineStep_errClass cont lineNo text pos marker 4 tos rest ch hhead
          (by rw [hc]; decide)
      · exact inlineStep_errClass cont lineNo text pos marker 4 tos rest ch hhead
          (by rw [hc]; decide)
      · exact inlineStep_errClass cont lineNo text pos marker 4 tos rest ch hhead
          (by rw [hc]; decide)
      · by_cases hm : marker > 0
        · by_cases hdup : k0 ∈ ks
          · exact inlineStep_actErr cont lineNo text pos marker 4 13 tos rest ch
              (.goError (makeFormatError ("duplicate key: " ++ k0))) hhead
              (by rw [hc]; decide) (by decide) (by decide)
              (by simp +decide [inlineAction, IsGhost, hm, appendStringValue, hkey,
                Stack.PushKV, hk, hdup])
              (noMixed_goError _)
          · refine inlineStep_accept cont lineNo text pos marker marker 4 13 tos
              { tos with
                  keys := some (ks ++ [k0]),
                  values := tos.values ++ [.str (String.mk (goTrim (textSlice text marker pos)))] }
              rest rest ch hhead (by rw [hc]; decide) (by decide) (by decide) (by decide)
              ?_ (reduce_some_of_dictBal _ ⟨ks ++ [k0], rfl, by simp [hb]⟩)
              (linkOK_of_nonterm_eq tos _ rest hlink rfl) hstk hcont
            simp +decide [inlineAction, IsGhost, hm, appendStringValue, hkey,
              Stack.PushKV, hk, hdup]
        · refine inlineStep_accept cont lineNo text pos marker marker 4 13 tos tos
            rest rest ch hhead (by rw [hc]; decide) (by decide) (by decide) (by decide)
            ?_ (reduce_some_of_dictBal _ ⟨ks, hk, hb⟩) hlink hstk hcont
          simp [inlineAction, hm]

theorem inlineInv_s7 (cont : Nat → Nat → Int → Stack → Except PErr (Value × Nat))
    (lineNo : Nat) (text : List Char) (pos marker : Nat) (tos : StackEntry) (rest : Stack)
    (htop : TopOK 7 tos) (hlink : LinkOK tos rest) (hstk : StackOK rest)
    (hcont : ContOK cont) :
    NoMixed (inlineRunStep cont lineNo text pos marker 7 tos rest) := by
  have hk : tos.keys = none := htop
  cases hhead : (text.drop pos).head? with
  | none => simp [inlineRunStep, hhead, NoMixed]
  | some ch =>
      have hle := inlineTokenFor_le ch
      have h9 : InlineTokenFor ch = 0 ∨ InlineTokenFor ch = 1 ∨ InlineTokenFor ch = 2 ∨
          InlineTokenFor ch = 3 ∨ InlineTokenFor ch = 4 ∨ InlineTokenFor ch = 5 ∨
          InlineTokenFor ch = 6 ∨ InlineTokenFor ch = 7 ∨ InlineTokenFor ch = 8 := by omega
      rcases h9 with hc | hc | hc | hc | hc | hc | hc | hc | hc
      · exact inlineStep_plain cont lineNo text pos marker marker 7 9 tos rest
          (tos :: rest) ch hhead (by rw [hc]; decide) (by decide) (by decide) (by decide)
          rfl hcont ⟨hk, hlink, hstk⟩
      · exact inlineStep_plain cont lineNo text pos marker marker 7 8 tos rest
          (tos :: rest) ch hhead (by rw [hc]; decide) (by decide) (by decide) (by decide)
          rfl hcont ⟨hk, hlink, hstk⟩
      · exact inlineStep_errClass cont lineNo text pos marker 7 tos rest ch hhead
          (by rw [hc]; decide)
      · have hch : ch = ',' := inlineTokenFor_comma ch hc
        by_cases hm : marker > 0
        · cases hkey : tos.key with
          | some k2 =>
              exact inlineStep_actErr cont lineNo text pos marker 7 7 tos rest ch
                (.goError (makeFormatError "unexpected key in non-dict context")) hhead
                (by rw [hc]; decide) (by decide) (by decide)
                (by simp +decide [inlineAction, IsGhost, hch, hm, appendStringValue, hkey,
                  Stack.PushKV, hk])
                (noMixed_goError _)
          | none =>
              refine inlineStep_plain cont lineNo text pos marker (pos + 1) 7 7 tos rest
                ({ tos with values :=
                    tos.values ++ [.str (String.mk (goTrim (textSlice text marker pos)))] }
                  :: rest) ch hhead
                (by rw [hc]; decide) (by decide) (by decide) (by decide) ?_ hcont
                ⟨hk, linkOK_of_nonterm_eq tos _ rest hlink rfl, hstk⟩
              simp +decide [inlineAction, IsGhost, hch, hm, appendStringValue, hkey,
                Stack.PushKV]
        · refine inlineStep_plain cont lineNo text pos marker (pos + 1) 7 7 tos rest
            (tos :: rest) ch hhead
            (by rw [hc]; decide) (by decide) (by decide) (by decide) ?_ hcont
            ⟨hk, hlink, hstk⟩
          simp [inlineAction, hm]
      · exact inlineStep_plain cont lineNo text pos marker marker 7 9 tos rest
          (tos :: rest) ch hhead (by rw [hc]; decide) (by decide) (by decide) (by decide)
          rfl hcont ⟨hk, hlink, hstk⟩
      · refine inlineStep_push cont lineNo text pos marker (pos + 1) 7 12 7 tos rest
          (inlineFreshEntry 12 (inlineStateMachine 7 (stateIndex 12)) :: tos :: rest) ch
          hhead (by rw [hc]; decide) (by decide) (by decide) (by rw [hc]; decide)
          (by decide) (by decide) ?_ hcont
          ⟨rfl, Or.inr ⟨by decide, hk⟩, hlink, hstk⟩
        simp [inlineAction, ne_comma_of_class ch 5 hc (by decide)]
      · by_cases hm : marker > 0
        · cases hkey : tos.key with
          | some k2 =>
              exact inlineStep_actErr cont lineNo text pos marker 7 14 tos rest ch
                (.goError (makeFormatError "unexpected key in non-dict context")) hhead
                (by rw [hc]; decide) (by decide) (by decide)
                (by simp +decide [inlineAction, IsGhost, hm, appendStringValue, hkey,
                  Stack.PushKV, hk])
                (noMixed_goError _)
          | none =>
              by_cases hvl : ((textSlice text marker pos).length > 0 ∨
                  tos.values.length > 0)
              · refine inlineStep_accept cont lineNo text pos marker marker 7 14 tos
                  { tos with values :=
                      tos.values ++ [.str (String.mk (goTrim (textSlice text marker pos)))] }
                  rest rest ch hhead (by rw [hc]; decide) (by decide) (by decide)
                  (by decide) ?_ (reduce_some_of_noKeys _ hk)
                  (linkOK_of_nonterm_eq tos _ rest hlink rfl) hstk hcont
                simp +decide [inlineAction, IsGhost, hm, appendStringValue, hkey,
                  Stack.PushKV, hvl]
              · refine inlineStep_accept cont lineNo text pos marker marker 7 14 tos tos
                  rest rest ch hhead (by rw [hc]; decide) (by decide) (by decide)
                  (by decide) ?_ (reduce_some_of_noKeys _ hk) hlink hstk hcont
                simp +decide [inlineAction, IsGhost, hm, appendStringValue, hkey, hvl]
        · refine inlineStep_accept cont lineNo text pos marker marker 7 14 tos tos
            rest rest ch hhead (by rw [hc]; decide) (by decide) (by decide) (by decide)
            ?_ (reduce_some_of_noKeys _ hk) hlink hstk hcont
          simp [inlineAction, hm]
      · exact inlineStep_push cont lineNo text pos marker (pos + 1) 7 11 1 tos rest
          (inlineFreshEntry 11 (inlineStateMachine 7 (stateIndex 11)) :: tos :: rest) ch
          hhead (by rw [hc]; decide) (by decide) (by decide) (by rw [hc]; decide)
          (by decide) (by decide) rfl hcont
          ⟨⟨rfl, rfl⟩, Or.inr ⟨by decide, hk⟩, hlink, hstk⟩
      · exact inlineStep_errClass cont lineNo text pos marker 7 tos rest ch hhead
          (by rw [hc]; decide)

theorem inlineInv_s8 (cont : Nat → Nat → Int → Stack → Except PErr (Value × Nat))
    (lineNo : Nat) (text : List Char) (pos marker : Nat) (tos : StackEntry) (rest : Stack)
    (htop : TopOK 8 tos) (hlink : LinkOK tos rest) (hstk : StackOK rest)
    (hcont : ContOK cont) :
    NoMixed (inlineRunStep cont lineNo text pos marker 8 tos rest) := by
  have hk : tos.keys = none := htop
  cases hhead : (text.drop pos).head? with
  | none => simp [inlineRunStep, hhead, NoMixed]
  | some ch =>
      have hle := inlineTokenFor_le ch
      have h9 : InlineTokenFor ch = 0 ∨ InlineTokenFor ch = 1 ∨ InlineTokenFor ch = 2 ∨
          InlineTokenFor ch = 3 ∨ InlineTokenFor ch = 4 ∨ InlineTokenFor ch = 5 ∨
          InlineTokenFor ch = 6 ∨ InlineTokenFor ch = 7 ∨ InlineTokenFor ch = 8 := by omega
      rcases h9 with hc | hc | hc | hc | hc | hc | hc | hc | hc
      · exact inlineStep_plain cont lineNo text pos marker marker 8 9 tos rest
          (tos :: rest) ch hhead (by rw [hc]; decide) (by decide) (by decide) (by decide)
          rfl hcont ⟨hk, hlink, hstk⟩
      · exact inlineStep_plain cont lineNo text pos marker marker 8 8 tos rest
          (tos :: rest) ch hhead (by rw [hc]; decide) (by decide) (by decide) (by decide)
          rfl hcont ⟨hk, hlink, hstk⟩
      · exact inlineStep_errClass cont lineNo text pos marker 8 tos rest ch hhead
          (by rw [hc]; decide)
      · have hch : ch = ',' := inlineTokenFor_comma ch hc
        by_cases hm : marker > 0
        · cases hkey : tos.key with
          | some k2 =>
              exact inlineStep_actErr cont lineNo text pos marker 8 7 tos rest ch
                (.goError (makeFormatError "unexpected key in non-dict context")) hhead
                (by rw [hc]; decide) (by decide) (by decide)
                (by simp +decide [inlineAction, IsGhost, hch, hm, appendStringValue, hkey,
                  Stack.PushKV, hk])
                (noMixed_goError _)
          | none =>
              refine inlineStep_plain cont lineNo text pos marker (pos + 1) 8 7 tos rest
                ({ tos with values :=
                    tos.values ++ [.str (String.mk (goTrim (textSlice text marker pos)))] }
                  :: rest) ch hhead
                (by rw [hc]; decide) (by decide) (by decide) (by decide) ?_ hcont
                ⟨hk, linkOK_of_nonterm_eq tos _ rest hlink rfl, hstk⟩
              simp +decide [inlineAction, IsGhost, hch, hm, appendStringValue, hkey,
                Stack.PushKV]
        · refine inlineStep_plain cont lineNo text pos marker (pos + 1) 8 7 tos rest
            (tos :: rest) ch hhead
            (by rw [hc]; decide) (by decide) (by decide) (by decide) ?_ hcont
            ⟨hk, hlink, hstk⟩
          simp [inlineAction, hm]
      · exact inlineStep_plain cont lineNo text pos marker marker 8 9 tos rest
          (tos :: rest) ch hhead (by rw [hc]; decide) (by decide) (by decide) (by decide)
          rfl hcont ⟨hk, hlink, hstk⟩
      · refine inlineStep_push cont lineNo text pos marker (pos + 1) 8 12 7 tos rest
          (inlineFreshEntry 12 (inlineStateMachine 8 (stateIndex 12)) :: tos :: rest) ch
          hhead (by rw [hc]; decide) (by decide) (by decide) (by rw [hc]; decide)
          (by decide) (by decide) ?_ hcont
          ⟨rfl, Or.inr ⟨by decide, hk⟩, hlink, hstk⟩
        simp [inlineAction, ne_comma_of_class ch 5 hc (by decide)]
      · by_cases hm : marker > 0
        · cases hkey : tos.key with
          | some k2 =>
              exact inlineStep_actErr cont lineNo text pos marker 8 14 tos rest ch
                (.goError (makeFormatError "unexpected key in non-dict context")) hhead
                (by rw [hc]; decide) (by decide) (by decide)
                (by simp +decide [inlineAction, IsGhost, hm, appendStringValue, hkey,
                  Stack.PushKV, hk])
                (noMixed_goError _)
          | none =>
              by_cases hvl : ((textSlice text marker pos).length > 0 ∨
                  tos.values.length > 0)
              · refine inlineStep_accept cont lineNo text pos marker marker 8 14 tos
                  { tos with values :=
                      tos.values ++ [.str (String.mk (goTrim (textSlice text marker pos)))] }
                  rest rest ch hhead (by rw [hc]; decide) (by decide) (by decide)
                  (by decide) ?_ (reduce_some_of_noKeys _ hk)
                  (linkOK_of_nonterm_eq tos _ rest hlink rfl) hstk hcont
                simp +decide [inlineAction, IsGhost, hm, appendStringValue, hkey,
                  Stack.PushKV, hvl]
              · refine inlineStep_accept cont lineNo text pos marker marker 8 14 tos tos
                  rest rest ch hhead (by rw [hc]; decide) (by decide) (by decide)
                  (by decide) ?_ (reduce_some_of_noKeys _ hk) hlink hstk hcont
                simp +decide [inlineAction, IsGhost, hm, appendStringValue, hkey, hvl]
        · refine inlineStep_accept cont lineNo text pos marker marker 8 14 tos tos
            rest rest ch hhead (by rw [hc]; decide) (by decide) (by decide) (by decide)
            ?_ (reduce_some_of_noKeys _ hk) hlink hstk hcont
          simp [inlineAction, hm]
      · exact inlineStep_push cont lineNo text pos marker (pos + 1) 8 11 1 tos rest
          (inlineFreshEntry 11 (inlineStateMachine 8 (stateIndex 11)) :: tos :: rest) ch
          hhead (by rw [hc]; decide) (by decide) (by decide) (by rw [hc]; decide)
          (by decide) (by decide) rfl hcont
          ⟨⟨rfl, rfl⟩, Or.inr ⟨by decide, hk⟩, hlink, hstk⟩
      · exact inlineStep_errClass cont lineNo text pos marker 8 tos rest ch hhead
          (by rw [hc]; decide)

theorem inlineInv_s9 (cont : Nat → Nat → Int → Stack → Except PErr (Value × Nat))
    (lineNo : Nat) (text : List Char) (pos marker : Nat) (tos : StackEntry) (rest : Stack)
    (htop : TopOK 9 tos) (hlink : LinkOK tos rest) (hstk : StackOK rest)
    (hcont : ContOK cont) :
    NoMixed (inlineRunStep cont lineNo text pos marker 9 tos rest) := by
  have hk : tos.keys = none := htop
  cases hhead : (text.drop pos).head? with
  | none => simp [inlineRunStep, hhead, NoMixed]
  | some ch =>
      have hle := inlineTokenFor_le ch
      have h9 : InlineTokenFor ch = 0 ∨ InlineTokenFor ch = 1 ∨ InlineTokenFor ch = 2 ∨
          InlineTokenFor ch = 3 ∨ InlineTokenFor ch = 4 ∨ InlineTokenFor ch = 5 ∨
          InlineTokenFor ch = 6 ∨ InlineTokenFor ch = 7 ∨ InlineTokenFor ch = 8 := by omega
      rcases h9 with hc | hc | hc | hc | hc | hc | hc | hc | hc
      · exact inlineStep_plain cont lineNo text pos marker marker 9 9 tos rest
          (tos :: rest) ch hhead (by rw [hc]; decide) (by decide) (by decide) (by decide)
          rfl hcont ⟨hk, hlink, hstk⟩
      · exact inlineStep_plain cont lineNo text pos marker marker 9 9 tos rest
          (tos :: rest) ch hhead (by rw [hc]; decide) (by decide) (by decide) (by decide)
          rfl hcont ⟨hk, hlink, hstk⟩
      · exact inlineStep_errClass cont lineNo text pos marker 9 tos rest ch hhead
          (by rw [hc]; decide)
      · have hch : ch = ',' := inlineTokenFor_comma ch hc
        by_cases hm : marker > 0
        · cases hkey : tos.key with
          | some k2 =>
              exact inlineStep_actErr cont lineNo text pos marker 9 7 tos rest ch
                (.goError (makeFormatError "unexpected key in non-dict context")) hhead
                (by rw [hc]; decide) (by decide) (by decide)
                (by simp +decide [inlineAction, IsGhost, hch, hm, appendStringValue, hkey,
                  Stack.PushKV, hk])
                (noMixed_goError _)
          | none =>
              refine inlineStep_plain cont lineNo text pos marker (pos + 1) 9 7 tos rest
                ({ tos with values :=
                    tos.values ++ [.str (String.mk (goTrim (textSlice text marker pos)))] }
                  :: rest) ch hhead
                (by rw [hc]; decide) (by decide) (by decide) (by decide) ?_ hcont
                ⟨hk, linkOK_of_nonterm_eq tos _ rest hlink rfl, hstk⟩
              simp +decide [inlineAction, IsGhost, hch, hm, appendStringValue, hkey,
                Stack.PushKV]
        · refine inlineStep_plain cont lineNo text pos marker (pos + 1) 9 7 tos rest
            (tos :: rest) ch hhead
            (by rw [hc]; decide) (by decide) (by decide) (by decide) ?_ hcont
            ⟨hk, hlink, hstk⟩
          simp [inlineAction, hm]
      · exact inlineStep_plain cont lineNo text pos marker marker 9 9 tos rest
          (tos :: rest) ch hhead (by rw [hc]; decide) (by decide) (by decide) (by decide)
          rfl hcont ⟨hk, hlink, hstk⟩
      · exact inlineStep_errClass cont lineNo text pos marker 9 tos rest ch hhead
          (by rw [hc]; decide)
      · by_cases hm : marker > 0
        · cases hkey : tos.key with
          | some k2 =>
              exact inlineStep_actErr cont lineNo text pos marker 9 14 tos rest ch
                (.goError (makeFormatError "unexpected key in non-dict context")) hhead
                (by rw [hc]; decide) (by decide) (by decide)
                (by simp +decide [inlineAction, IsGhost, hm, appendStringValue, hkey,
                  Stack.PushKV, hk])
                (noMixed_goError _)
          | none =>
              by_cases hvl : ((textSlice text marker pos).length > 0 ∨
                  tos.values.length > 0)
              · refine inlineStep_accept cont lineNo text pos marker marker 9 14 tos
                  { tos with values :=
                      tos.values ++ [.str (String.mk (goTrim (textSlice text marker pos)))] }
                  rest rest ch hhead (by rw [hc]; decide) (by decide) (by decide)
                  (by decide) ?_ (reduce_some_of_noKeys _ hk)
                  (linkOK_of_nonterm_eq tos _ rest hlink rfl) hstk hcont
                simp +decide [inlineAction, IsGhost, hm, appendStringValue, hkey,
                  Stack.PushKV, hvl]
              · refine inlineStep_accept cont lineNo text pos marker marker 9 14 tos tos
                  rest rest ch hhead (by rw [hc]; decide) (by decide) (by decide)
                  (by decide) ?_ (reduce_some_of_noKeys _ hk) hlink hstk hcont
                simp +decide [inlineAction, IsGhost, hm, appendStringValue, hkey, hvl]
        · refine inlineStep_accept cont lineNo text pos marker marker 9 14 tos tos
            rest rest ch hhead (by rw [hc]; decide) (by decide) (by decide) (by decide)
            ?_ (reduce_some_of_noKeys _ hk) hlink hstk hcont
          simp [inlineAction, hm]
      · exact inlineStep_errClass cont lineNo text pos marker 9 tos rest ch hhead
          (by rw [hc]; decide)
      · exact inlineStep_errClass cont lineNo text pos marker 9 tos rest ch hhead
          (by rw [hc]; decide)

theorem inlineInv_s10 (cont : Nat → Nat → Int → Stack → Except PErr (Value × Nat))
    (lineNo : Nat) (text : List Char) (pos marker : Nat) (tos : StackEntry) (rest : Stack)
    (htop : TopOK 10 tos) (hlink : LinkOK tos rest) (hstk : StackOK rest)
    (hcont : ContOK cont) :
    NoMixed (inlineRunStep cont lineNo text pos marker 10 tos rest) := by
  have hk : tos.keys = none := htop
  cases hhead : (text.drop pos).head? with
  | none => simp [inlineRunStep, hhead, NoMixed]
  | some ch =>
      have hle := inlineTokenFor_le ch
      have h9 : InlineTokenFor ch = 0 ∨ InlineTokenFor ch = 1 ∨ InlineTokenFor ch = 2 ∨
          InlineTokenFor ch = 3 ∨ InlineTokenFor ch = 4 ∨ InlineTokenFor ch = 5 ∨
          InlineTokenFor ch = 6 ∨ InlineTokenFor ch = 7 ∨ InlineTokenFor ch = 8 := by omega
      rcases h9 with hc | hc | hc | hc | hc | hc | hc | hc | hc
      · exact inlineStep_errClass cont lineNo text pos marker 10 tos rest ch hhead
          (by rw [hc]; decide)
      · exact inlineStep_plain cont lineNo text pos marker marker 10 10 tos rest
          (tos :: rest) ch hhead (by rw [hc]; decide) (by decide) (by decide) (by decide)
          rfl hcont ⟨hk, hlink, hstk⟩
      · exact inlineStep_errClass cont lineNo text pos marker 10 tos rest ch hhead
          (by rw [hc]; decide)
      · refine inlineStep_plain cont lineNo text pos marker (pos + 1) 10 7 tos rest
          (tos :: rest) ch hhead
          (by rw [hc]; decide) (by decide) (by decide) (by decide) ?_ hcont
          ⟨hk, hlink, hstk⟩
        simp +decide [inlineAction, IsGhost]
      · exact inlineStep_errClass cont lineNo text pos marker 10 tos rest ch hhead
          (by rw [hc]; decide)
      · exact inlineStep_errClass cont lineNo text pos marker 10 tos rest ch hhead
          (by rw [hc]; decide)
      · refine inlineStep_accept cont lineNo text pos marker marker 10 14 tos tos
          rest rest ch hhead (by rw [hc]; decide) (by decide) (by decide) (by decide)
          ?_ (reduce_some_of_noKeys _ hk) hlink hstk hcont
        simp +decide [inlineAction, IsGhost]
      · exact inlineStep_errClass cont lineNo text pos marker 10 tos rest ch hhead
          (by rw [hc]; decide)
      · exact inlineStep_errClass cont lineNo text pos marker 10 tos rest ch hhead
          (by rw [hc]; decide)

/-- The inline automaton loop never raises the mixed-item panic from any
invariant-satisfying configuration. -/
theorem inlineRun_noMixed (lineNo : Nat) (text : List Char) :
    ∀ fuel pos marker state stack, InlineInv state stack →
      NoMixed (inlineRun lineNo text fuel pos marker state stack) := by
  intro fuel
  induction fuel with
  | zero =>
      intro pos marker state stack _
      simp +decide [inlineRun, NoMixed]
  | succ f ih =>
      intro pos marker state stack hinv
      cases stack with
      | nil => simp +decide [inlineRun, NoMixed]
      | cons tos rest =>
          rw [inlineRun_succ]
          obtain ⟨htop, hlink, hstk⟩ := hinv
          have hcont : ContOK (inlineRun lineNo text f) := fun p m st stk h => ih p m st stk h
          by_cases h1 : state = 1
          · subst h1
            exact inlineInv_s1 _ lineNo text pos marker tos rest htop hlink hstk hcont
          by_cases h2 : state = 2
          · subst h2
            exact inlineInv_s2 _ lineNo text pos marker tos rest htop hlink hstk hcont
          by_cases h3 : state = 3
          · subst h3
            exact inlineInv_s3 _ lineNo text pos marker tos rest htop hlink hstk hcont
          by_cases h4 : state = 4
          · subst h4
            exact inlineInv_s4 _ lineNo text pos marker tos rest htop hlink hstk hcont
          by_cases h5 : state = 5
          · subst h5
            exact inlineInv_s5 _ lineNo text pos marker tos rest htop hlink hstk hcont
          by_cases h6 : state = 6
          · subst h6
            exact inlineInv_s6 _ lineNo text pos marker tos rest htop hlink hstk hcont
          by_cases h7 : state = 7
          · subst h7
            exact inlineInv_s7 _ lineNo text pos marker tos rest htop hlink hstk hcont
          by_cases h8 : state = 8
          · subst h8
            exact inlineInv_s8 _ lineNo text pos marker tos rest htop hlink hstk hcont
          by_cases h9 : state = 9
          · subst h9
            exact inlineInv_s9 _ lineNo text pos marker tos rest htop hlink hstk hcont
          by_cases h10 : state = 10
          · subst h10
            exact inlineInv_s10 _ lineNo text pos marker tos rest htop hlink hstk hcont
          by_cases h11 : state = 11
          · subst h11
            exact inlineInv_s11 _ lineNo text pos marker tos rest htop hlink hstk hcont
          by_cases h12 : state = 12
          · subst h12
            exact inlineInv_s12 _ lineNo text pos marker tos rest htop hlink hstk hcont
          exact absurd htop (by simp [TopOK, h1, h2, h3, h4, h5, h6, h7, h8, h9, h10,
            h11, h12])

/-- `InlineItemParser.Parse` never raises the mixed-item panic when
started from one of the two real initial states. -/
theorem inlineParse_noMixed (lineNo : Nat) (initial : Int) (input : String)
    (hinit : initial = StateS1 ∨ initial = StateS2) :
    NoMixed (InlineParse lineNo initial input) := by
  have hinv : InlineInv initial [inlineFreshEntry initial 0] := by
    rcases hinit with h | h <;> subst h <;>
      exact ⟨by constructor <;> rfl, trivial, trivial⟩
  have hrun := inlineRun_noMixed lineNo input.data (input.data.length + 1) 0 0 initial
    [inlineFreshEntry initial 0] hinv
  simp only [InlineParse]
  cases hr : inlineRun lineNo input.data (input.data.length + 1) 0 0 initial
      [inlineFreshEntry initial 0] with
  | error e =>
      rw [hr] at hrun
      simp [NoMixed] at hrun ⊢
      exact hrun
  | ok p =>
      cases p with
      | mk result ppos =>
          by_cases htr : (goTrim (input.data.drop ppos)).length > 0
          · simp [htr, NoMixed]
          · simp [htr, NoMixed]

theorem noMixed_error_iff {α : Type} (e : PErr) :
    NoMixed (α := α) (.error e) ↔
      e ≠ .goPanic "mixed item: number of keys not equal to number of values" := by
  simp [NoMixed]

theorem next_stack (s : PState) : s.next.stack = s.stack := by
  cases h : s.toks <;> simp [PState.next, h]

theorem multiStringLoop_ok (fuel : Nat) : ∀ (i : Nat) (acc : String) (s : PState),
    (Parser.multiStringLoop fuel i acc s).1.stack = s.stack ∧
    NoMixed (Parser.multiStringLoop fuel i acc s).2 := by
  induction fuel with
  | zero => intro i acc s; simp +decide [Parser.multiStringLoop, NoMixed]
  | succ f ih =>
      intro i acc s
      simp only [Parser.multiStringLoop]
      cases herr : (s.next).cur.error with
      | some e => simp [herr, next_stack, NoMixed]
      | none =>
          simp only [herr]
          by_cases hif : ((s.next).cur.tokenType ≠ .StringMultiline ∨ (s.next).cur.indent ≠ i)
          · simp [hif, next_stack, NoMixed]
          · simp only [hif, if_false]
            obtain ⟨h1, h2⟩ := ih i (acc ++ "\n" ++ allowVoid (s.next).cur.content 0) s.next
            rw [next_stack] at h1
            exact ⟨h1, h2⟩

theorem stitchMultiKey_ok (fuel : Nat) : ∀ (i : Nat) (acc : String) (s : PState),
    (Parser.stitchMultiKey fuel i acc s).1.stack = s.stack ∧
    NoMixed (Parser.stitchMultiKey fuel i acc s).2 := by
  induction fuel with
  | zero => intro i acc s; simp +decide [Parser.stitchMultiKey, NoMixed]
  | succ f ih =>
      intro i acc s
      simp only [Parser.stitchMultiKey]
      cases herr : (s.next).cur.error with
      | some e => simp [herr, next_stack, NoMixed]
      | none =>
          simp only [herr]
          by_cases hif : ((s.next).cur.tokenType ≠ .DictKeyMultiline ∨ (s.next).cur.indent ≠ i)
          · simp [hif, next_stack, NoMixed]
          · simp only [hif, if_false]
            obtain ⟨h1, h2⟩ := ih i (acc ++ "\n" ++ allowVoid (s.next).cur.content 0) s.next
            rw [next_stack] at h1
            exact ⟨h1, h2⟩

theorem parseMultiString_ok (fuel i : Nat) (s : PState) :
    (Parser.parseMultiString fuel i s).1.stack = s.stack ∧
    NoMixed (Parser.parseMultiString fuel i s).2 := by
  simp only [Parser.parseMultiString]
  by_cases hne : s.cur.indent ≠ i
  · simp [hne, NoMixed]
  · simp only [hne, if_false]
    obtain ⟨h1, h2⟩ := multiStringLoop_ok fuel i (allowVoid s.cur.content 0) s
    cases hr : Parser.multiStringLoop fuel i (allowVoid s.cur.content 0) s with
    | mk s2 r =>
        rw [hr] at h1 h2
        cases r with
        | error e => exact ⟨by simpa using h1, by simpa [NoMixed] using h2⟩
        | ok str => exact ⟨by simpa using h1, by simp [NoMixed]⟩

theorem parseListItem_ok (i : Nat) (s : PState) :
    (Parser.parseListItem i s).1.stack = s.stack ∧
    NoMixed (Parser.parseListItem i s).2 := by
  simp only [Parser.parseListItem]
  by_cases hgt : s.cur.indent > i
  · simp [hgt, NoMixed]
  · simp only [hgt, if_false]
    by_cases hlt : s.cur.indent < i
    · simp [hlt, NoMixed]
    · simp only [hlt, if_false]
      cases hcont : s.cur.content with
      | nil => simp +decide [NoMixed]
      | cons c cs =>
          cases herr : (s.next).cur.error with
          | some e => simp [herr, next_stack, NoMixed]
          | none => simp [herr, next_stack, NoMixed]

theorem parseDictKeyValuePair_ok (i : Nat) (s : PState) :
    (Parser.parseDictKeyValuePair i s).1.stack = s.stack ∧
    NoMixed (Parser.parseDictKeyValuePair i s).2 ∧
    (∀ s' k v, Parser.parseDictKeyValuePair i s = (s', .ok (k, v)) →
      v ≠ none → k ≠ none) := by
  simp only [Parser.parseDictKeyValuePair]
  by_cases hne : s.cur.indent ≠ i
  · refine ⟨by simp [hne], by simp [hne, NoMixed], ?_⟩
    intro s' k v heq hv
    simp [hne] at heq
    exact absurd heq.2.2.symm hv
  · simp only [hne, if_false]
    match hcont : s.cur.content with
    | [] => simp +decide [NoMixed]
    | [k1] => simp +decide [NoMixed]
    | k1 :: v1 :: rest =>
        cases herr : (s.next).cur.error with
        | some e => simp [herr, next_stack, NoMixed]
        | none =>
            refine ⟨by simp [herr, next_stack], by simp [herr, NoMixed], ?_⟩
            intro s' k v heq hv
            simp [herr] at heq
            rw [← heq.2.1]
            simp

/-- A value-producing parser call is benign: no mixed-item panic, and on
success the stack is exactly the input stack. -/
def AnyOK {α : Type} (s : PState) (res : PState × Except PErr α) : Prop :=
  NoMixed res.2 ∧ ∀ s' v, res = (s', Except.ok v) → s'.stack = s.stack

/-- The list accumulation loop is benign: no mixed-item panic, and on
success the top frame is still key-less above the unchanged tail. -/
def ItemsOK {α : Type} (rest : Stack) (res : PState × Except PErr α) : Prop :=
  NoMixed res.2 ∧ ∀ s' vs, res = (s', Except.ok vs) →
    ∃ g, s'.stack = g :: rest ∧ g.keys = none

/-- The dict accumulation loop is benign: no mixed-item panic, and on
success the top frame is still a balanced dict above the unchanged tail. -/
def PairsOK {α : Type} (rest : Stack) (res : PState × Except PErr α) : Prop :=
  NoMixed res.2 ∧ ∀ s' r, res = (s', Except.ok r) →
    ∃ g gs, s'.stack = g :: rest ∧ g.keys = some gs ∧ gs.length = g.values.length

/-- A key/value-pair parser call is benign: no mixed-item panic, on
success the stack is unchanged and a produced value always comes with a
produced key. -/
def PairOK (s : PState) (res : PState × Except PErr (Option String × Option Value)) :
    Prop :=
  NoMixed res.2 ∧ ∀ s' k v, res = (s', Except.ok (k, v)) →
    s'.stack = s.stack ∧ (v ≠ none → k ≠ none)

theorem anyOK_err {α : Type} (s t : PState) (e : PErr)
    (h : NoMixed (α := α) (.error e)) : AnyOK (α := α) s (t, .error e) := by
  refine ⟨h, ?_⟩
  intro s' v heq
  simp at heq

theorem anyOK_ok {α : Type} (s t : PState) (v : α) (h : t.stack = s.stack) :
    AnyOK s (t, .ok v) := by
  refine ⟨noMixed_ok v, ?_⟩
  intro s' v' heq
  simp at heq
  rw [← heq.1]
  exact h

theorem itemsOK_err {α : Type} (rest : Stack) (t : PState) (e : PErr)
    (h : NoMixed (α := α) (.error e)) : ItemsOK (α := α) rest (t, .error e) := by
  refine ⟨h, ?_⟩
  intro s' v heq
  simp at heq

theorem itemsOK_ok {α : Type} (rest : Stack) (t : PState) (vs : α) (g : StackEntry)
    (hst : t.stack = g :: rest) (hg : g.keys = none) : ItemsOK rest (t, .ok vs) := by
  refine ⟨noMixed_ok vs, ?_⟩
  intro s' v' heq
  simp at heq
  rw [← heq.1]
  exact ⟨g, hst, hg⟩

theorem pairsOK_err {α : Type} (rest : Stack) (t : PState) (e : PErr)
    (h : NoMixed (α := α) (.error e)) : PairsOK (α := α) rest (t, .error e) := by
  refine ⟨h, ?_⟩
  intro s' v heq
  simp at heq

theorem pairsOK_ok {α : Type} (rest : Stack) (t : PState) (r : α) (g : StackEntry)
    (gs : List String) (hst : t.stack = g :: rest) (hg : g.keys = some gs)
    (hb : gs.length = g.values.length) : PairsOK rest (t, .ok r) := by
  refine ⟨noMixed_ok r, ?_⟩
  intro s' v' heq
  simp at heq
  rw [← heq.1]
  exact ⟨g, gs, hst, hg, hb⟩

theorem pairOK_err (s t : PState) (e : PErr)
    (h : NoMixed (α := Option String × Option Value) (.error e)) :
    PairOK s (t, .error e) := by
  refine ⟨h, ?_⟩
  intro s' k v heq
  simp at heq

theorem pairOK_ok (s t : PState) (k : Option String) (v : Option Value)
    (hst : t.stack = s.stack) (hkv : v ≠ none → k ≠ none) : PairOK s (t, .ok (k, v)) := by
  refine ⟨noMixed_ok _, ?_⟩
  intro s' k' v' heq
  simp at heq
  obtain ⟨h1, h2, h3⟩ := heq
  subst h1
  rw [← h2, ← h3]
  exact ⟨hst, hkv⟩

/-- The induction bundle for the eight mutually recursive parser
functions: none of them can raise the mixed-item panic, the four
value-producing functions leave the stack exactly as they found it on
success, and the two accumulation loops keep the pushed frame's shape
(list frames stay key-less, dict frames stay balanced). -/
structure StructOK (fuel : Nat) : Prop where
  pAny : ∀ i d s, AnyOK s ((mkParserFuns fuel).parseAny i d s)
  pList : ∀ i d s, AnyOK s ((mkParserFuns fuel).parseList i d s)
  pItems : ∀ i d s f rest, s.stack = f :: rest → f.keys = none →
    ItemsOK rest ((mkParserFuns fuel).parseListItems i d s)
  pItemM : ∀ i d s, AnyOK s ((mkParserFuns fuel).parseListItemMultiline i d s)
  pDict : ∀ i d s, AnyOK s ((mkParserFuns fuel).parseDict i d s)
  pPairs : ∀ i d s f rest ks, s.stack = f :: rest → f.keys = some ks →
    ks.length = f.values.length →
    PairsOK rest ((mkParserFuns fuel).parseDictKeyValuePairs i d s)
  pPairAny : ∀ i d s, PairOK s ((mkParserFuns fuel).parseDictKeyAnyValuePair i d s)
  pPairM : ∀ i d s,
    PairOK s ((mkParserFuns fuel).parseDictKeyValuePairWithMultilineKey i d s)

theorem structOK_zero : StructOK 0 := by
  refine ⟨?_, ?_, ?_, ?_, ?_, ?_, ?_, ?_⟩ <;>
    intros <;>
    refine ⟨by simp +decide [mkParserFuns, noFuelFuns, NoMixed], ?_⟩ <;>
    intros <;> simp +decide [mkParserFuns, noFuelFuns] at *

theorem structOK_succ_pItemM (f : Nat) (ih : StructOK f) :
    ∀ i d s, AnyOK s ((mkParserFuns (f + 1)).parseListItemMultiline i d s) := by
  intro i d s
  simp only [mkParserFuns]
  by_cases h1 : s.cur.indent ≠ i
  · rw [if_pos h1]
    exact anyOK_ok s s none rfl
  · rw [if_neg h1]
    cases herr : (s.next).cur.error with
    | some e =>
        simp only [herr]
        exact anyOK_err _ _ _ (noMixed_goError e)
    | none =>
        simp only [herr]
        by_cases h2 : (s.next).cur.indent ≤ i
        · rw [if_pos h2]
          exact anyOK_ok s _ _ (next_stack s)
        · rw [if_neg h2]
          obtain ⟨hnm, hsp⟩ := ih.pAny (s.next).cur.indent d s.next
          cases hsub : (mkParserFuns f).parseAny (s.next).cur.indent d s.next with
          | mk s3 r =>
              rw [hsub] at hnm hsp
              simp only [hsub]
              by_cases h3 : s3.cur.indent > i
              · rw [if_pos h3]
                exact anyOK_err _ _ _ (noMixed_goError _)
              · rw [if_neg h3]
                cases r with
                | error e => exact anyOK_err _ _ _ hnm
                | ok v =>
                    refine anyOK_ok s s3 v ?_
                    rw [hsp s3 v rfl, next_stack]

theorem structOK_succ_pPairAny (f : Nat) (ih : StructOK f) :
    ∀ i d s, PairOK s ((mkParserFuns (f + 1)).parseDictKeyAnyValuePair i d s) := by
  intro i d s
  simp only [mkParserFuns]
  by_cases h1 : s.cur.indent ≠ i
  · rw [if_pos h1]
    exact pairOK_ok s s none none rfl (by simp)
  · rw [if_neg h1]
    cases hcont : s.cur.content with
    | nil =>
        simp only [hcont]
        exact pairOK_err _ _ _ (by simp +decide [NoMixed])
    | cons k0 cs =>
        simp only [hcont]
        cases herr : (s.next).cur.error with
        | some e =>
            simp only [herr]
            exact pairOK_err _ _ _ (noMixed_goError e)
        | none =>
            simp only [herr]
            by_cases h2 : (s.next).cur.indent ≤ i
            · rw [if_pos h2]
              exact pairOK_ok s _ _ _ (next_stack s) (by simp)
            · rw [if_neg h2]
              obtain ⟨hnm, hsp⟩ := ih.pAny (s.next).cur.indent d s.next
              cases hsub : (mkParserFuns f).parseAny (s.next).cur.indent d s.next with
              | mk s3 r =>
                  rw [hsub] at hnm hsp
                  cases r with
                  | error e =>
                      refine pairOK_err _ _ _ ((noMixed_error_iff e).2 ?_)
                      exact (noMixed_error_iff e).1 (by simpa using hnm)
                  | ok v =>
                      refine pairOK_ok s s3 _ _ ?_ (by simp)
                      rw [hsp s3 v rfl, next_stack]

theorem structOK_succ_pPairM (f : Nat) (ih : StructOK f) :
    ∀ i d s, PairOK s ((mkParserFuns (f + 1)).parseDictKeyValuePairWithMultilineKey i d s) := by
  intro i d s
  simp only [mkParserFuns]
  by_cases h1 : s.cur.indent ≠ i
  · rw [if_pos h1]
    exact pairOK_ok s s none none rfl (by simp)
  · rw [if_neg h1]
    obtain ⟨hst, hnm⟩ := stitchMultiKey_ok f i (allowVoid s.cur.content 0) s
    cases hsub : Parser.stitchMultiKey f i (allowVoid s.cur.content 0) s with
    | mk s2 r =>
        rw [hsub] at hst hnm
        cases r with
        | error e =>
            refine pairOK_err _ _ _ ((noMixed_error_iff e).2 ?_)
            exact (noMixed_error_iff e).1 (by simpa using hnm)
        | ok key =>
            by_cases h2 : s2.cur.indent ≤ i
            · simp only [if_pos h2]
              exact pairOK_err _ _ _ (noMixed_goError _)
            · simp only [if_neg h2]
              obtain ⟨hnm2, hsp2⟩ := ih.pAny s2.cur.indent d s2
              cases hsub2 : (mkParserFuns f).parseAny s2.cur.indent d s2 with
              | mk s3 r2 =>
                  rw [hsub2] at hnm2 hsp2
                  cases r2 with
                  | error e =>
                      refine pairOK_err _ _ _ ((noMixed_error_iff e).2 ?_)
                      exact (noMixed_error_iff e).1 (by simpa using hnm2)
                  | ok v =>
                      refine pairOK_ok s s3 _ _ ?_ (by simp)
                      rw [hsp2 s3 v rfl, hst]

theorem structOK_succ_pAny (f : Nat) (ih : StructOK f) :
    ∀ i d s, AnyOK s ((mkParserFuns (f + 1)).parseAny i d s) := by
  intro i d s
  simp only [mkParserFuns]
  by_cases h1 : s.cur.indent < i
  · rw [if_pos h1]
    exact anyOK_ok s s none rfl
  · rw [if_neg h1]
    by_cases h2 : d ≥ maxNestingDepth
    · rw [if_pos h2]
      exact anyOK_err _ _ _ (noMixed_goError _)
    · rw [if_neg h2]
      cases htok : s.cur.tokenType with
      | StringMultiline =>
          simp only [htok]
          obtain ⟨hst, hnm⟩ := parseMultiString_ok f s.cur.indent s
          cases hr : Parser.parseMultiString f s.cur.indent s with
          | mk s2 r =>
              rw [hr] at hst hnm
              cases r with
              | error e => exact anyOK_err _ _ _ (by simpa using hnm)
              | ok v => exact anyOK_ok s s2 v (by simpa using hst)
      | InlineList =>
          simp only [htok]
          cases hm : s.minimal with
          | true =>
              simp only [hm, if_true]
              exact anyOK_err _ _ _ (noMixed_goError _)
          | false =>
              simp only [hm, Bool.false_eq_true, if_false]
              cases hcont : s.cur.content with
              | nil =>
                  simp only [hcont]
                  exact anyOK_err _ _ _ (by simp +decide [NoMixed])
              | cons c cs =>
                  simp only [hcont]
                  have hip := inlineParse_noMixed s.cur.lineNo StateS2 c (Or.inr rfl)
                  cases hic : InlineParse s.cur.lineNo StateS2 c with
                  | error e =>
                      rw [hic] at hip
                      refine anyOK_err _ _ _ ((noMixed_error_iff e).2 ?_)
                      exact (noMixed_error_iff e).1 hip
                  | ok v =>
                      cases herr : (s.next).cur.error with
                      | some e2 =>
                          simp only [herr]
                          exact anyOK_err _ _ _ (noMixed_goError _)
                      | none =>
                          simp only [herr]
                          exact anyOK_ok s _ _ (next_stack s)
      | InlineDict =>
          simp only [htok]
          cases hm : s.minimal with
          | true =>
              simp only [hm, if_true]
              exact anyOK_err _ _ _ (noMixed_goError _)
          | false =>
              simp only [hm, Bool.false_eq_true, if_false]
              cases hcont : s.cur.content with
              | nil =>
                  simp only [hcont]
                  exact anyOK_err _ _ _ (by simp +decide [NoMixed])
              | cons c cs =>
                  simp only [hcont]
                  have hip := inlineParse_noMixed s.cur.lineNo StateS1 c (Or.inl rfl)
                  cases hic : InlineParse s.cur.lineNo StateS1 c with
                  | error e =>
                      rw [hic] at hip
                      refine anyOK_err _ _ _ ((noMixed_error_iff e).2 ?_)
                      exact (noMixed_error_iff e).1 hip
                  | ok v =>
                      cases herr : (s.next).cur.error with
                      | some e2 =>
                          simp only [herr]
                          exact anyOK_err _ _ _ (noMixed_goError _)
                      | none =>
                          simp only [herr]
                          exact anyOK_ok s _ _ (next_stack s)
      | ListItem =>
          simp only [htok]
          exact ih.pList i (d + 1) s
      | ListItemMultiline =>
          simp only [htok]
          exact ih.pList i (d + 1) s
      | InlineDictKeyValue =>
          simp only [htok]
          exact ih.pDict i (d + 1) s
      | InlineDictKey =>
          simp only [htok]
          exact ih.pDict i (d + 1) s
      | DictKeyMultiline =>
          simp only [htok]
          cases hm : s.minimal with
          | true =>
              simp only [hm, if_true]
              exact anyOK_err _ _ _ (noMixed_goError _)
          | false =>
              simp only [hm, Bool.false_eq_true, if_false]
              exact ih.pDict i (d + 1) s
      | Undefined =>
          simp only [htok]
          exact anyOK_err _ _ _ (noMixed_goError _)
      | EOF =>
          simp only [htok]
          exact anyOK_err _ _ _ (noMixed_goError _)
      | EmptyDocument =>
          simp only [htok]
          exact anyOK_err _ _ _ (noMixed_goError _)
      | DocRoot =>
          simp only [htok]
          exact anyOK_err _ _ _ (noMixed_goError _)

theorem structOK_succ_pList (f : Nat) (ih : StructOK f) :
    ∀ i d s, AnyOK s ((mkParserFuns (f + 1)).parseList i d s) := by
  intro i d s
  simp only [mkParserFuns]
  obtain ⟨hnm, hsp⟩ := ih.pItems
    ({ s with stack := pushNonterm false s.stack } : PState).cur.indent d
    { s with stack := pushNonterm false s.stack }
    { values := [], keys := none, key := none, error := none, nontermState := 0 }
    s.stack (by simp [pushNonterm]) rfl
  cases hsub : (mkParserFuns f).parseListItems
      ({ s with stack := pushNonterm false s.stack } : PState).cur.indent d
      { s with stack := pushNonterm false s.stack } with
  | mk s2 r =>
      rw [hsub] at hnm hsp
      cases r with
      | error e =>
          refine anyOK_err _ _ _ ((noMixed_error_iff e).2 ?_)
          exact (noMixed_error_iff e).1 (by simpa using hnm)
      | ok vs =>
          obtain ⟨g, hgst, hgk⟩ := hsp s2 vs rfl
          obtain ⟨v, hv⟩ := reduce_some_of_noKeys g hgk
          simp only [hgst, hv]
          exact anyOK_ok s _ _ rfl

theorem structOK_succ_pDict (f : Nat) (ih : StructOK f) :
    ∀ i d s, AnyOK s ((mkParserFuns (f + 1)).parseDict i d s) := by
  intro i d s
  simp only [mkParserFuns]
  obtain ⟨hnm, hsp⟩ := ih.pPairs
    ({ s with stack := pushNonterm true s.stack } : PState).cur.indent d
    { s with stack := pushNonterm true s.stack }
    { values := [], keys := some [], key := none, error := none, nontermState := 0 }
    s.stack [] (by simp [pushNonterm]) rfl rfl
  cases hsub : (mkParserFuns f).parseDictKeyValuePairs
      ({ s with stack := pushNonterm true s.stack } : PState).cur.indent d
      { s with stack := pushNonterm true s.stack } with
  | mk s2 r =>
      rw [hsub] at hnm hsp
      cases r with
      | error e =>
          refine anyOK_err _ _ _ ((noMixed_error_iff e).2 ?_)
          exact (noMixed_error_iff e).1 (by simpa using hnm)
      | ok ks0 =>
          obtain ⟨g, gs, hgst, hgk, hgb⟩ := hsp s2 ks0 rfl
          obtain ⟨v, hv⟩ := reduce_some_of_dictBal g ⟨gs, hgk, hgb⟩
          simp only [hgst, hv]
          by_cases hded : ({ s2 with stack := s.stack } : PState).cur.indent > i
          · simp only [if_pos hded]
            exact anyOK_err _ _ _ (noMixed_goError _)
          · simp only [if_neg hded]
            exact anyOK_ok s _ _ rfl

theorem items_tail_ok (f : Nat) (ih : StructOK f) (i d : Nat) (s : PState)
    (f0 : StackEntry) (rest : Stack) (hsf : s.stack = f0 :: rest) (hkf : f0.keys = none)
    (res : PState × Except PErr (Option Value))
    (hnm : NoMixed res.2)
    (hsp : ∀ s' v, res = (s', Except.ok v) → s'.stack = s.stack) :
    ItemsOK rest
      (match res with
       | (s2, .error e) => (s2, .error e)
       | (s2, .ok (some v)) =>
           match Stack.PushKV s2.stack none v with
           | .error e => (s2, .error e)
           | .ok st => (mkParserFuns f).parseListItems i d { s2 with stack := st }
       | (s2, .ok none) =>
           match s2.stack with
           | [] => (s2, .error (.goPanic "Tos on empty stack"))
           | e :: _ => (s2, .ok e.values)) := by
  obtain ⟨s2, r⟩ := res
  cases r with
  | error e =>
      refine itemsOK_err _ _ _ ((noMixed_error_iff e).2 ?_)
      exact (noMixed_error_iff e).1 (by simpa using hnm)
  | ok vo =>
      have hs2 : s2.stack = f0 :: rest := by rw [hsp s2 vo rfl, hsf]
      cases vo with
      | none =>
          simp only [hs2]
          exact itemsOK_ok rest s2 _ f0 hs2 hkf
      | some v =>
          have hpk : Stack.PushKV s2.stack none v =
              .ok ({ f0 with values := f0.values ++ [v] } :: rest) := by
            rw [hs2]
            simp [Stack.PushKV]
          simp only [hpk]
          exact ih.pItems i d _ { f0 with values := f0.values ++ [v] } rest rfl hkf

theorem structOK_succ_pItems (f : Nat) (ih : StructOK f) :
    ∀ i d s f0 rest, s.stack = f0 :: rest → f0.keys = none →
      ItemsOK rest ((mkParserFuns (f + 1)).parseListItems i d s) := by
  intro i d s f0 rest hsf hkf
  simp only [mkParserFuns]
  by_cases htok : (s.cur.tokenType = TokenType.ListItem ∨
      s.cur.tokenType = TokenType.ListItemMultiline)
  · simp only [if_pos htok]
    by_cases hli : s.cur.tokenType = TokenType.ListItem
    · simp only [if_pos hli]
      obtain ⟨hst1, hnm1⟩ := parseListItem_ok i s
      refine items_tail_ok f ih i d s f0 rest hsf hkf _ hnm1 ?_
      intro s' v heq
      rw [← hst1, heq]
    · simp only [if_neg hli]
      obtain ⟨hnmM, hspM⟩ := ih.pItemM i d s
      exact items_tail_ok f ih i d s f0 rest hsf hkf _ hnmM hspM
  · simp only [if_neg htok]
    simp only [hsf]
    exact itemsOK_ok rest s _ f0 hsf hkf

theorem pairs_tail_ok (f : Nat) (ih : StructOK f) (i d : Nat) (s : PState)
    (f0 : StackEntry) (rest : Stack) (ks : List String)
    (hsf : s.stack = f0 :: rest) (hkf : f0.keys = some ks)
    (hb : ks.length = f0.values.length)
    (res : PState × Except PErr (Option String × Option Value))
    (hres : PairOK s res) :
    PairsOK rest
      (match res with
       | (s2, .error e) => (s2, .error e)
       | (s2, .ok (k, some v)) =>
           match Stack.PushKV s2.stack k v with
           | .error e => (s2, .error e)
           | .ok st => (mkParserFuns f).parseDictKeyValuePairs i d { s2 with stack := st }
       | (s2, .ok (_, none)) =>
           match s2.stack with
           | [] => (s2, .error (.goPanic "Tos on empty stack"))
           | e :: _ => (s2, .ok e.keys)) := by
  obtain ⟨hnm, hsp⟩ := hres
  obtain ⟨s2, r⟩ := res
  cases r with
  | error e =>
      refine pairsOK_err _ _ _ ((noMixed_error_iff e).2 ?_)
      exact (noMixed_error_iff e).1 (by simpa using hnm)
  | ok kv =>
      obtain ⟨k, vo⟩ := kv
      obtain ⟨hs2eq, hkv⟩ := hsp s2 k vo rfl
      have hs2 : s2.stack = f0 :: rest := by rw [hs2eq, hsf]
      cases vo with
      | none =>
          simp only [hs2]
          exact pairsOK_ok rest s2 _ f0 ks hs2 hkf hb
      | some v =>
          have hkne : k ≠ none := hkv (by simp)
          obtain ⟨kk, hkk⟩ : ∃ kk, k = some kk := by
            cases k with
            | none => exact absurd rfl hkne
            | some kk => exact ⟨kk, rfl⟩
          subst hkk
          by_cases hdup : kk ∈ ks
          · have hpk : Stack.PushKV s2.stack (some kk) v =
                .error (.goError (makeFormatError ("duplicate key: " ++ kk))) := by
              rw [hs2]
              simp [Stack.PushKV, hkf, hdup]
            simp only [hpk]
            exact pairsOK_err _ _ _ (noMixed_goError _)
          · have hpk : Stack.PushKV s2.stack (some kk) v =
                .ok ({ f0 with
                        keys := some (ks ++ [kk]),
                        values := f0.values ++ [v] } :: rest) := by
              rw [hs2]
              simp [Stack.PushKV, hkf, hdup]
            simp only [hpk]
            exact ih.pPairs i d _ _ rest (ks ++ [kk]) rfl rfl (by simp [hb])

theorem structOK_succ_pPairs (f : Nat) (ih : StructOK f) :
    ∀ i d s f0 rest ks, s.stack = f0 :: rest → f0.keys = some ks →
      ks.length = f0.values.length →
      PairsOK rest ((mkParserFuns (f + 1)).parseDictKeyValuePairs i d s) := by
  intro i d s f0 rest ks hsf hkf hb
  simp only [mkParserFuns]
  by_cases htok : (s.cur.tokenType = TokenType.InlineDictKeyValue ∨
      s.cur.tokenType = TokenType.InlineDictKey ∨
      s.cur.tokenType = TokenType.DictKeyMultiline)
  · simp only [if_pos htok]
    by_cases hmin : (s.cur.tokenType = TokenType.DictKeyMultiline ∧ s.minimal = true)
    · simp only [if_pos hmin]
      exact pairsOK_err _ _ _ (noMixed_goError _)
    · simp only [if_neg hmin]
      by_cases h1 : s.cur.tokenType = TokenType.InlineDictKeyValue
      · simp only [if_pos h1]
        obtain ⟨hst1, hnm1, hkv1⟩ := parseDictKeyValuePair_ok i s
        refine pairs_tail_ok f ih i d s f0 rest ks hsf hkf hb _ ⟨hnm1, ?_⟩
        intro s' k v heq
        refine ⟨by rw [← hst1, heq], hkv1 s' k v heq⟩
      · simp only [if_neg h1]
        by_cases h2 : s.cur.tokenType = TokenType.InlineDictKey
        · simp only [if_pos h2]
          exact pairs_tail_ok f ih i d s f0 rest ks hsf hkf hb _ (ih.pPairAny i d s)
        · simp only [if_neg h2]
          exact pairs_tail_ok f ih i d s f0 rest ks hsf hkf hb _ (ih.pPairM i d s)
  · simp only [if_neg htok]
    simp only [hsf]
    exact pairsOK_ok rest s _ f0 ks hsf hkf hb

theorem structOK_all (fuel : Nat) : StructOK fuel := by
  induction fuel with
  | zero => exact structOK_zero
  | succ f ih =>
      exact ⟨structOK_succ_pAny f ih, structOK_succ_pList f ih, structOK_succ_pItems f ih,
        structOK_succ_pItemM f ih, structOK_succ_pDict f ih, structOK_succ_pPairs f ih,
        structOK_succ_pPairAny f ih, structOK_succ_pPairM f ih⟩

theorem parseDocument_noMixed (fuel : Nat) (s0 : PState) :
    NoMixed (Parser.parseDocument fuel s0).2 := by
  simp only [Parser.parseDocument]
  cases herr1 : (s0.next).cur.error with
  | some e => simp [herr1, NoMixed]
  | none =>
      simp only [herr1]
      by_cases hEOF : ((s0.next).cur.tokenType = TokenType.EOF ∨
          (s0.next).cur.tokenType = TokenType.EmptyDocument)
      · simp [hEOF, NoMixed]
      · simp only [if_neg hEOF]
        cases herr2 : ((s0.next).next).cur.error with
        | some e => simp [herr2, NoMixed]
        | none =>
            simp only [herr2]
            obtain ⟨hnm, _⟩ := (structOK_all fuel).pAny 0 0 ((s0.next).next)
            cases hsub : Parser.parseAny fuel 0 0 ((s0.next).next) with
            | mk s3 r =>
                have hsub2 : (mkParserFuns fuel).parseAny 0 0 ((s0.next).next) = (s3, r) :=
                  hsub
                rw [hsub2] at hnm
                cases r with
                | error e => simpa [NoMixed] using hnm
                | ok v =>
                    by_cases hne : s3.cur.tokenType ≠ TokenType.EOF
                    · simp [hne, NoMixed]
                    · simp [hne, NoMixed]

/-- Decoding never raises the mixed-item panic, under either mode. -/
theorem decodeWith_noMixed (minimal : Bool) (input : String) :
    NoMixed (decodeWith minimal input) := by
  simp only [decodeWith]
  exact parseDocument_noMixed _ _

/-- C9: a key is only ever attached to a mapping frame together with its
value (`Stack.PushKV` with a key extends `Keys` and `Values` in one
step), so a frame whose key and value counts are equal stays balanced —
the pending key of a half-read pair is held in the separate `key` field,
which is the only transient imbalance; consequently decoding, in either
mode, can never observe a mapping frame with unequal key and value
counts: the `ReduceToItem` mixed-item panic is unreachable for every
input. -/
theorem claim_C9_mapping_balance :
    (∀ tos rest k v st' ks, Stack.PushKV (tos :: rest) (some k) v = .ok st' →
        tos.keys = some ks → ks.length = tos.values.length →
        ∃ g, st' = g :: rest ∧ g.keys = some (ks ++ [k]) ∧
          (ks ++ [k]).length = g.values.length) ∧
    (∀ minimal input, decodeWith minimal input ≠
      .error (.goPanic "mixed item: number of keys not equal to number of values")) := by
  constructor
  · intro tos rest k v st' ks hpush hks hb
    simp only [Stack.PushKV, hks] at hpush
    by_cases hdup : k ∈ ks
    · rw [if_pos hdup] at hpush
      exact absurd hpush (by simp)
    · rw [if_neg hdup] at hpush
      refine ⟨{ tos with keys := some (ks ++ [k]), values := tos.values ++ [v] },
        ?_, rfl, by simp [hb]⟩
      have h2 : ({ tos with keys := some (ks ++ [k]), values := tos.values ++ [v] }
          :: rest) = st' := by simpa using hpush
      exact h2.symm
  · intro minimal input
    exact decodeWith_noMixed minimal input

theorem claim_C9_witness :
    (∃ g, [({ values := [Value.str "x"],
              keys := some ["a"],
              key := none,
              error := none,
              nontermState := 0 } : StackEntry)] = g :: ([] : Stack) ∧
      g.keys = some ([] ++ ["a"]) ∧ ([] ++ ["a"]).length = g.values.length) ∧
    decodeWith false "{a: 1, b: 2}" ≠
      .error (.goPanic "mixed item: number of keys not equal to number of values") :=
  ⟨claim_C9_mapping_balance.1
      { values := [], keys := some [], key := none, error := none, nontermState := 0 }
      [] "a" (Value.str "x") _ [] rfl rfl rfl,
    claim_C9_mapping_balance.2 false "{a: 1, b: 2}"⟩
